import Mathlib

/-!
Shallow embedding of the CppConfigParser repository (config_parser.h /
config_parser.cpp) and verification of its specification claims.

Strings are modelled as `List Char` (`Str`).  C++ `std::string` indexing
`s[i]` is defined for `0 ≤ i ≤ s.size()` (index `size()` yields the null
character); the embedding's `charAt` mirrors this with a `'\x00'` default.
Machine `int` is modelled as `Int` with the 32-bit range checks that
`std::stoi` performs.  `float`/`double` values are represented by the
literal token consumed by the host parser (`strtof` grammar); their
numeric interpretation is irrelevant to every claim proved here, only
parse success/failure and determinism matter.
-/

/-- Character strings of the C++ program, modelled as lists of characters. -/
abbrev Str := List Char

/-- Convert a Lean string literal to the embedding's string type. -/
def str (s : String) : Str := s.toList

/-- Models `std::isspace` in the default "C" locale (used via
`ConfigParser::is_space`): space, tab, newline, vertical tab, form feed,
carriage return. -/
def is_space (c : Char) : Bool :=
  c == ' ' || c == '\t' || c == '\n' || c == Char.ofNat 11 || c == Char.ofNat 12 ||
    c == '\x0d'

/-- Models `std::string::operator[]`: defined for indices up to and
including the length (the index `size()` access yields the null
character).  Accesses beyond that are undefined behaviour in C++; the
embedding totalises them with the null character and claim C10 tracks
such accesses separately. -/
def charAt (s : Str) (i : Nat) : Char := (s[i]?).getD (Char.ofNat 0)

/-- Models `std::string::back()`; `back()` on an empty string is
undefined behaviour in C++, totalised here with the null character. -/
def getLastD (s : Str) : Char := s.getLast?.getD (Char.ofNat 0)

/- Type name constants of `ConfigParser`. -/

/-- Constant `ConfigParser::kStringTypeString`. -/
def kStringTypeString : Str := str "string"

/-- Constant `ConfigParser::kIntTypeString`. -/
def kIntTypeString : Str := str "int"

/-- Constant `ConfigParser::kFloatTypeString`. -/
def kFloatTypeString : Str := str "float"

/-- Constant `ConfigParser::kDoubleTypeString`. -/
def kDoubleTypeString : Str := str "double"

/-- Constant `ConfigParser::kBoolTypeString`. -/
def kBoolTypeString : Str := str "bool"

/-- Constant `ConfigParser::kValidTypeStrings`. -/
def kValidTypeStrings : List Str :=
  [kStringTypeString, kIntTypeString, kFloatTypeString, kDoubleTypeString, kBoolTypeString]

/-- Expression type enum from config_parser.h. -/
inductive ExpressionType where
  | kString
  | kInt
  | kFloat
  | kDouble
  | kBool
deriving DecidableEq

/-- Models the map `ConfigParser::kTypeStringMap` (lookup returning
`none` where C++ `.at` would throw; all call sites are guarded by
`TypeStringIsValid`). -/
def kTypeStringMap (t : Str) : Option ExpressionType :=
  if t = kStringTypeString then some .kString
  else if t = kIntTypeString then some .kInt
  else if t = kFloatTypeString then some .kFloat
  else if t = kDoubleTypeString then some .kDouble
  else if t = kBoolTypeString then some .kBool
  else none

/-- Models `ConfigParser::TypeStringIsValid` (membership in
`kValidTypeStrings`). -/
def TypeStringIsValid (t : Str) : Bool := decide (t ∈ kValidTypeStrings)

/-- Struct `Variable` from config_parser.h. -/
structure Variable where
  type_string : Str
  is_vector : Bool
  expression_string : Str
deriving DecidableEq

/- Single value parsing methods. -/

/-- Models `ParseString`: valid iff length ≥ 2, first and last characters
are `"` and the interior contains no further `"`; value is the interior.
Source returns the pair (parsed value, error flag). -/
def ParseString (s : Str) : Str × Bool :=
  if s.length < 2 ∨ charAt s 0 ≠ '"' ∨ getLastD s ≠ '"' then ([], true)
  else
    let contents := (s.drop 1).dropLast
    if contents.contains '"' then (contents, true) else (contents, false)

/-- Decimal value of a digit string, most significant digit first
(the accumulation `std::stoi` performs on the digit characters). -/
def digitsVal (ds : Str) : Nat := ds.foldl (fun a c => a * 10 + (c.toNat - 48)) 0

/-- Core of `std::stoi` at base 10: skip leading whitespace, optional
sign, then the longest run of decimal digits; `none` when no digits are
found (`std::invalid_argument`) or the value leaves the 32-bit `int`
range (`std::out_of_range`).  Trailing characters after the digit run
are ignored, exactly as `std::stoi` ignores them.  `stoiSign` is the
optional-sign step, returning the negativity flag and the remainder. -/
def stoiSign : Str → Bool × Str
  | '-' :: r => (true, r)
  | '+' :: r => (false, r)
  | s1 => (false, s1)

/-- Digit-run extraction and range check of `std::stoi` after the
whitespace skip and sign handling of `stoiSign`. -/
def stoiCore (s : Str) : Option Int :=
  match stoiSign (s.dropWhile is_space) with
  | (neg, t) =>
    let ds := t.takeWhile Char.isDigit
    if ds = [] then none
    else
      let v : Int := if neg then -(digitsVal ds : Int) else (digitsVal ds : Int)
      if v < -2147483648 ∨ 2147483647 < v then none else some v

/-- Models `ParseInt` (a `try { return std::stoi(...) } catch` wrapper):
on failure the error flag is set and 0 returned. -/
def ParseInt (s : Str) : Int × Bool :=
  match stoiCore s with
  | some v => (v, false)
  | none => (0, true)

/-- Case-insensitive test that `pat` (given in lowercase) starts `s`. -/
def startsWithCI : Str → Str → Bool
  | [], _ => true
  | _ :: _, [] => false
  | c :: cs, d :: ds => (d.toLower == c) && startsWithCI cs ds

/-- Core of `std::strtof`/`std::strtod`: skip leading whitespace,
optional sign, then either an `inf`/`infinity`/`nan` form
(case-insensitive) or a decimal mantissa (digits with an optional
fractional part, at least one digit overall) with an optional exponent
(`e`/`E`, optional sign, at least one digit, otherwise not consumed).
The result is the consumed literal token; `none` when no valid prefix
exists (`std::invalid_argument` in the callers).  Hexadecimal float
forms (`0x...`) and `nan(...)` payloads, which the host parser also
accepts, are outside the modelled grammar; no claim depends on them. -/
def strtofCore (s : Str) : Option Str :=
  let s1 := s.dropWhile is_space
  let p : Str × Str :=
    match s1 with
    | '-' :: r => (['-'], r)
    | '+' :: r => (['+'], r)
    | _ => ([], s1)
  let s2 := p.2
  if startsWithCI (str "infinity") s2 then some (p.1 ++ s2.take 8)
  else if startsWithCI (str "inf") s2 then some (p.1 ++ s2.take 3)
  else if startsWithCI (str "nan") s2 then some (p.1 ++ s2.take 3)
  else
    let ip := s2.takeWhile Char.isDigit
    let r1 := s2.drop ip.length
    let q : Str × Str :=
      match r1 with
      | '.' :: rr => ('.' :: rr.takeWhile Char.isDigit, rr.drop (rr.takeWhile Char.isDigit).length)
      | _ => ([], r1)
    if ip = [] ∧ q.1.length < 2 then none
    else
      let expPart : Str :=
        match q.2 with
        | e :: rest =>
          if e = 'e' ∨ e = 'E' then
            let r : Str × Str :=
              match rest with
              | '-' :: rr => (['-'], rr)
              | '+' :: rr => (['+'], rr)
              | _ => ([], rest)
            let eds := r.2.takeWhile Char.isDigit
            if eds = [] then [] else e :: r.1 ++ eds
          else []
        | [] => []
      some (p.1 ++ ip ++ q.1 ++ expPart)

/-- Models `ParseFloat` (`std::stof` wrapper); the value is represented
by the consumed literal token. -/
def ParseFloat (s : Str) : Str × Bool :=
  match strtofCore s with
  | some t => (t, false)
  | none => ([], true)

/-- Models `ParseDouble` (`std::stod` wrapper); same grammar as
`ParseFloat`, precision being irrelevant in the token representation. -/
def ParseDouble (s : Str) : Str × Bool :=
  match strtofCore s with
  | some t => (t, false)
  | none => ([], true)

/-- Models `ParseBool`: exactly `true` or `false`. -/
def ParseBool (s : Str) : Bool × Bool :=
  if s = str "true" then (true, false)
  else if s = str "false" then (false, false)
  else (false, true)

/- String manipulation helpers from the anonymous namespace. -/

/-- Models `Ltrim` (erase leading whitespace). -/
def ltrim (s : Str) : Str := s.dropWhile is_space

/-- Models `Rtrim` (erase trailing whitespace). -/
def rtrim (s : Str) : Str := (s.reverse.dropWhile is_space).reverse

/-- Models `Trim`. -/
def trim (s : Str) : Str := rtrim (ltrim s)

/-- One-pass accumulator loop realising `SplitString`: `cur` is the
segment collected since the last delimiter; a delimiter (or the end of
the input) emits `cur` when it is non-empty. -/
def splitStringAux (delim : Char) (cur : Str) : Str → List Str
  | [] => if cur = [] then [] else [cur]
  | c :: cs =>
    if c == delim then (if cur = [] then [] else [cur]) ++ splitStringAux delim [] cs
    else splitStringAux delim (cur ++ [c]) cs

/-- Models `SplitString` with `retain_empty = false`: split on the
delimiter, keeping only non-empty segments (consecutive delimiters and
delimiters at either end produce nothing). -/
def splitString (delim : Char) (s : Str) : List Str := splitStringAux delim [] s

/-- Models the per-line comment removal scan inside
`StripWhitespaceAndComments`: a `"` toggles the quote state; an unquoted
occurrence of the comment prefix `#` (`IsCommentStart`) erases the rest
of the line. -/
def removeComment : Bool → Str → Str
  | _, [] => []
  | inQ, c :: cs =>
    if c == '"' then c :: removeComment (!inQ) cs
    else if !inQ && c == '#' then []
    else c :: removeComment inQ cs

/-- Models `StripWhitespaceAndComments`: break the input text into
lines, remove comments (quote-aware), trim whitespace, drop empty
lines. -/
def StripWhitespaceAndComments (input : Str) : List Str :=
  (((splitString '\n' input).map (removeComment false)).map trim).filter (fun l => l ≠ [])

/-- State update of the scan inside `RemoveNewlinesInVectorExpressions`:
the pair is (in_vector, in_quotes). -/
def vecScanStep (st : Bool × Bool) (ch : Char) : Bool × Bool :=
  if ch == '"' then (st.1, !st.2)
  else if !st.2 && !st.1 && ch == '[' then (true, st.2)
  else if !st.2 && st.1 && ch == ']' then (false, st.2)
  else st

/-- Loop of `RemoveNewlinesInVectorExpressions`: accumulate lines while
inside an open vector literal (replacing each newline with one space),
carrying the (in_vector, in_quotes) state across lines; flush the
pending accumulator at the end. -/
def removeNewlinesGo (st : Bool × Bool) (acc : Str) : List Str → List Str
  | [] => if acc ≠ [] then [acc] else []
  | line :: rest =>
    let acc2 := acc ++ line
    let st2 := line.foldl vecScanStep st
    if st2.1 then removeNewlinesGo st2 (acc2 ++ [' ']) rest
    else acc2 :: removeNewlinesGo st2 [] rest

/-- Models `RemoveNewlinesInVectorExpressions`. -/
def RemoveNewlinesInVectorExpressions (stripped_lines : List Str) : List Str :=
  removeNewlinesGo (false, false) [] stripped_lines

/- Index-based scanning primitives. -/

/-- Models `ReadNextToken`: starting at `i`, advance while the current
character exists and does not satisfy the delimiter predicate,
collecting the scanned characters; returns the token and the index of
the delimiter (or the string length).  Stated denotationally: the token
is the longest non-delimiter run of `s.drop i` and the final index is
`i` plus its length, which is exactly what the source loop computes. -/
def readNextToken (p : Char → Bool) (s : Str) (i : Nat) : Str × Nat :=
  let tok := (s.drop i).takeWhile (fun c => !p c)
  (tok, i + tok.length)

/-- Models `SkipWhitespace`: reads `s[i]` (note: the C++ read is only
defined for `i ≤ s.size()`); when it is whitespace, scan forward to the
next non-whitespace character. -/
def skipWhitespace (s : Str) (i : Nat) : Nat :=
  if is_space (charAt s i) then (readNextToken (fun c => !is_space c) s i).2 else i

/- Vector splitting. -/

/-- String branch of `SplitVectorExpression`: the quote-aware state
machine over the characters strictly between the enclosing brackets
(the loop runs `i` from 1 while `i + 1 < size`).  Arguments are the
`in_quotes`, `expect_comma`, `expect_new_value` flags, the
`current_string` accumulator, the collected values, and the remaining
characters; on error the values collected so far are returned with the
error flag set (the C++ `break`). -/
def splitVecStrGo : Bool → Bool → Bool → Str → List Str → Str → List Str × Bool
  | _, _, _, _, acc, [] => (acc, false)
  | inQ, expC, expN, cur, acc, ch :: rest =>
    let cur1 := cur ++ [ch]
    if expC && (ch == ',') then splitVecStrGo inQ false true cur1 acc rest
    else if expC then (acc, true)
    else if expN && (ch == '"') then splitVecStrGo true expC false [ch] acc rest
    else if expN && is_space ch then splitVecStrGo inQ expC expN cur1 acc rest
    else if expN && !is_space ch then (acc, true)
    else if inQ && (ch == '"') then splitVecStrGo false true expN [] (acc ++ [cur1]) rest
    else if inQ && (ch != '"') then splitVecStrGo inQ expC expN cur1 acc rest
    else (acc, true)

/-- Non-string branch of `SplitVectorExpression`: while `index + 1 <
size`, read a token up to the next comma, reject internal whitespace,
strip a trailing `]`, store the value, advance past the comma and skip
whitespace.  The third result component records whether the
`SkipWhitespace` call ever read past the null terminator
(`index > size`, undefined behaviour in C++); the C++ `back()` call on
an empty token (also undefined behaviour, reachable for inputs with
empty elements such as `[,]`) is totalised by `getLastD`. -/
def splitVecNSGo (s : Str) : Nat → Bool → List Str → Nat → List Str × Bool × Bool
  | 0, oob, acc, _ => (acc, false, oob)
  | fuel + 1, oob, acc, index =>
    if index + 1 < s.length then
      let r := readNextToken (fun c => c == ',') s index
      if r.1.any is_space then (acc, true, oob)
      else
        let value := if getLastD r.1 == ']' then r.1.dropLast else r.1
        let i3 := r.2 + 1
        let oob2 := oob || decide (s.length < i3)
        splitVecNSGo s fuel oob2 (acc ++ [value]) (skipWhitespace s i3)
    else (acc, false, oob)

/-- Models `SplitVectorExpression`: string element type uses the
quote-aware state machine; other types use the comma tokenizer (the
fuel `s.length` bounds the loop, see `splitVecNSGo_fuel_stable`). -/
def SplitVectorExpression (vector_string : Str) (type_string : Str) : List Str × Bool :=
  if type_string = kStringTypeString then
    splitVecStrGo false false true [] []
      ((vector_string.drop 1).take (vector_string.length - 2))
  else
    let r := splitVecNSGo vector_string vector_string.length false [] 1
    (r.1, r.2.1)

/-- Out-of-bounds monitor of the non-string branch of
`SplitVectorExpression` (claim C10): true when some `SkipWhitespace`
call read an index strictly beyond the string length. -/
def splitVecNSOob (vector_string : Str) : Bool :=
  (splitVecNSGo vector_string vector_string.length false [] 1).2.2

/- Vector parsing. -/

/-- Element loop shared by the five `ParseXxxVector` functions: parse
each split element with the scalar parser, pushing the result and
breaking as soon as the error flag is set (so the failing element's
default value is the last pushed one). -/
def parseVectorElems {α : Type} (parse : Str → α × Bool) : List Str → List α × Bool
  | [] => ([], false)
  | e :: rest =>
    let r := parse e
    if r.2 then ([r.1], true)
    else
      let rr := parseVectorElems parse rest
      (r.1 :: rr.1, rr.2)

/-- Models `ParseStringVector`. -/
def ParseStringVector (s : Str) : List Str × Bool :=
  let r := SplitVectorExpression s kStringTypeString
  if r.2 then ([], true) else parseVectorElems ParseString r.1

/-- Models `ParseIntVector`. -/
def ParseIntVector (s : Str) : List Int × Bool :=
  let r := SplitVectorExpression s kIntTypeString
  if r.2 then ([], true) else parseVectorElems ParseInt r.1

/-- Models `ParseFloatVector`. -/
def ParseFloatVector (s : Str) : List Str × Bool :=
  let r := SplitVectorExpression s kFloatTypeString
  if r.2 then ([], true) else parseVectorElems ParseFloat r.1

/-- Models `ParseDoubleVector`. -/
def ParseDoubleVector (s : Str) : List Str × Bool :=
  let r := SplitVectorExpression s kDoubleTypeString
  if r.2 then ([], true) else parseVectorElems ParseDouble r.1

/-- Models `ParseBoolVector`. -/
def ParseBoolVector (s : Str) : List Bool × Bool :=
  let r := SplitVectorExpression s kBoolTypeString
  if r.2 then ([], true) else parseVectorElems ParseBool r.1

/-- Models `CheckParseValue`: dispatch on the type string and report
whether the scalar parser succeeds (`none` corresponds to the
`kTypeStringMap.at` throw on an unknown type, unreachable behind
`TypeStringIsValid`). -/
def CheckParseValue (value_string : Str) (type_string : Str) : Bool :=
  match kTypeStringMap type_string with
  | some .kString => !(ParseString value_string).2
  | some .kInt => !(ParseInt value_string).2
  | some .kFloat => !(ParseFloat value_string).2
  | some .kDouble => !(ParseDouble value_string).2
  | some .kBool => !(ParseBool value_string).2
  | none => false

/-- Models `CheckParseVector`. -/
def CheckParseVector (vector_string : Str) (type_string : Str) : Bool :=
  match kTypeStringMap type_string with
  | some .kString => !(ParseStringVector vector_string).2
  | some .kInt => !(ParseIntVector vector_string).2
  | some .kFloat => !(ParseFloatVector vector_string).2
  | some .kDouble => !(ParseDoubleVector vector_string).2
  | some .kBool => !(ParseBoolVector vector_string).2
  | none => false

/-- Models `CheckParseExpression`. -/
def CheckParseExpression (expression_string : Str) (type_string : Str)
    (is_vector : Bool) : Bool :=
  if is_vector then CheckParseVector expression_string type_string
  else CheckParseValue expression_string type_string

/- ConfigParser state and construction. -/

/-- State of a `ConfigParser` object: member variables `_config_path`,
`_var_map` (the unordered map modelled as an association list with
most-recent insertion first), `_error_messages` and `_line_number`. -/
structure ConfigParser where
  config_path : Str
  var_map : List (Str × Variable)
  error_messages : List Str
  line_number : Nat
deriving DecidableEq

/-- Association-list lookup realising `_var_map.count` / `_var_map.at` /
`_var_map[...]` on a key that is present. -/
def lookupVar (name : Str) : List (Str × Variable) → Option Variable
  | [] => none
  | kv :: rest => if kv.1 = name then some kv.2 else lookupVar name rest

/-- Models `ConfigParser::AddErrorMessage` (prefix with file path and
line number). -/
def AddErrorMessage (cp : ConfigParser) (error_message : Str) : ConfigParser :=
  { cp with
    error_messages := cp.error_messages ++
      [str "Parsing error in file " ++ cp.config_path ++ str ", line " ++
        Nat.toDigits 10 cp.line_number ++ str ": " ++ error_message] }

/-- Models `ConfigParser::ErrorCount`. -/
def ErrorCount (cp : ConfigParser) : Nat := cp.error_messages.length

/-- Type token scan of the constructor loop: skip leading whitespace and
read the first whitespace-delimited token. -/
def scanTypeTok (line : Str) : Str × Nat :=
  readNextToken is_space line (skipWhitespace line 0)

/-- Name token scan of the constructor loop: skip whitespace after the
type token and read the next whitespace-delimited token. -/
def scanNameTok (line : Str) : Str × Nat :=
  readNextToken is_space line (skipWhitespace line (scanTypeTok line).2)

/-- Equals-sign token scan of the constructor loop. -/
def scanEqTok (line : Str) : Str × Nat :=
  readNextToken is_space line (skipWhitespace line (scanNameTok line).2)

/-- Vector-suffix test of the constructor loop:
`type_string.size() >= 2 && type_string.substr(size - 2) == "[]"`. -/
def vecSuffix (type_tok : Str) : Bool :=
  decide (2 ≤ type_tok.length) && (type_tok.drop (type_tok.length - 2) == ['[', ']'])

/-- Final steps of one constructor-loop iteration, shared by the three
expression shapes: validate the expression with `CheckParseExpression`,
require the scan position to be at the end of the line, then insert the
variable.  The `Bool` result is true when the constructor `return`s
(halt-on-first-error). -/
def finishDecl (cp : ConfigParser) (line : Str) (name_string type_string : Str)
    (is_vector : Bool) (expression_string : Str) (current_index : Nat) :
    ConfigParser × Bool :=
  if !CheckParseExpression expression_string type_string is_vector then
    (AddErrorMessage cp (str "could not parse `" ++ expression_string ++
      str "` as type " ++ type_string ++ (if is_vector then str "[]" else [])), true)
  else if current_index < line.length then
    (AddErrorMessage cp (str "expected end of line at \"" ++ line.drop current_index ++
      str "\""), true)
  else
    ({ cp with var_map := (name_string, ⟨type_string, is_vector, expression_string⟩) ::
        cp.var_map }, false)

/-- One iteration of the constructor loop over a normalized input line:
increment the line number, tokenize type / name / `=`, extract the
value expression according to the declared shape, validate and insert.
The `Bool` result is true when the constructor `return`s. -/
def processLine (cp0 : ConfigParser) (line : Str) : ConfigParser × Bool :=
  let cp := { cp0 with line_number := cp0.line_number + 1 }
  let t := scanTypeTok line
  let is_vector := vecSuffix t.1
  let type_string := if is_vector then t.1.take (t.1.length - 2) else t.1
  if !TypeStringIsValid type_string then
    (AddErrorMessage cp (str "invalid type: " ++ type_string), true)
  else
    let n := scanNameTok line
    if (lookupVar n.1 cp.var_map).isSome then
      (AddErrorMessage cp (str "redefinition of entity: " ++ n.1), true)
    else
      let e := scanEqTok line
      if e.1 ≠ ['='] then
        (AddErrorMessage cp (str "expected \"=\", encountered \"" ++ e.1 ++ str "\""), true)
      else
        let i6 := skipWhitespace line e.2
        if is_vector then
          if charAt line i6 ≠ '[' ∨ getLastD line ≠ ']' then
            (AddErrorMessage cp (str "vector must be enclosed in []"), true)
          else finishDecl cp line n.1 type_string true (line.drop i6) line.length
        else if type_string = kStringTypeString then
          if charAt line i6 ≠ '"' ∨ getLastD line ≠ '"' then
            (AddErrorMessage cp (str "string value must be enclosed in \"\""), true)
          else finishDecl cp line n.1 type_string false (line.drop i6) line.length
        else
          let ex := readNextToken is_space line i6
          finishDecl cp line n.1 type_string false ex.1 ex.2

/-- Constructor loop over the normalized input lines; a halting
iteration (C++ `return`) discards the remaining lines. -/
def processLines (cp : ConfigParser) : List Str → ConfigParser
  | [] => cp
  | line :: rest =>
    let r := processLine cp line
    if r.2 then r.1 else processLines r.1 rest

/-- Models `ConfigParser::ConfigParser`: `file` is the result of opening
`config_path` (`none` when `is_open()` fails, in which case a single
"Error opening file" message is recorded and nothing is parsed);
otherwise preprocess the text and run the declaration loop. -/
def mkConfigParser (config_path : Str) (file : Option Str) : ConfigParser :=
  let cp0 : ConfigParser := ⟨config_path, [], [], 0⟩
  match file with
  | none => { cp0 with error_messages := [str "Error opening file: " ++ config_path] }
  | some text =>
    processLines cp0 (RemoveNewlinesInVectorExpressions (StripWhitespaceAndComments text))

/- Typed getters. -/

/-- Models `ConfigParser::CheckVariableExists`: true when the variable
exists with the expected type string and vector flag; otherwise a
lookup-error message is appended. -/
def CheckVariableExists (cp : ConfigParser) (variable_name : Str)
    (expected_type_string : Str) (expected_is_vector : Bool) : ConfigParser × Bool :=
  let variable_exists :=
    match lookupVar variable_name cp.var_map with
    | some v => v.type_string == expected_type_string && v.is_vector == expected_is_vector
    | none => false
  if variable_exists then (cp, true)
  else
    ({ cp with error_messages := cp.error_messages ++
        [str "Error: didn't find variable " ++ variable_name ++ str " of type " ++
          expected_type_string ++ (if expected_is_vector then str "[]" else [])] },
      false)

/-- Common shape of the ten typed getters: check existence under the
expected type and arity (returning the zero value on failure), then
re-run the matching value parser on the stored raw expression,
discarding its error flag (`error_flag_unusued` in the source).  The
`Option.getD` default models `_var_map[...]`, which is only evaluated
when the check succeeded. -/
def getTypedValue {α : Type} (parse : Str → α × Bool) (zero : α)
    (expected_type_string : Str) (expected_is_vector : Bool)
    (cp : ConfigParser) (variable_name : Str) : α × ConfigParser :=
  let c := CheckVariableExists cp variable_name expected_type_string expected_is_vector
  if !c.2 then (zero, c.1)
  else
    let v := (lookupVar variable_name c.1.var_map).getD ⟨[], false, []⟩
    ((parse v.expression_string).1, c.1)

/-- Models `ConfigParser::GetStringValue`. -/
def GetStringValue (cp : ConfigParser) (variable_name : Str) : Str × ConfigParser :=
  getTypedValue ParseString [] kStringTypeString false cp variable_name

/-- Models `ConfigParser::GetIntValue`. -/
def GetIntValue (cp : ConfigParser) (variable_name : Str) : Int × ConfigParser :=
  getTypedValue ParseInt 0 kIntTypeString false cp variable_name

/-- Models `ConfigParser::GetFloatValue` (float values represented by
their literal token, see `ParseFloat`). -/
def GetFloatValue (cp : ConfigParser) (variable_name : Str) : Str × ConfigParser :=
  getTypedValue ParseFloat [] kFloatTypeString false cp variable_name

/-- Models `ConfigParser::GetDoubleValue`. -/
def GetDoubleValue (cp : ConfigParser) (variable_name : Str) : Str × ConfigParser :=
  getTypedValue ParseDouble [] kDoubleTypeString false cp variable_name

/-- Models `ConfigParser::GetBoolValue`. -/
def GetBoolValue (cp : ConfigParser) (variable_name : Str) : Bool × ConfigParser :=
  getTypedValue ParseBool false kBoolTypeString false cp variable_name

/-- Models `ConfigParser::GetStringVector`. -/
def GetStringVector (cp : ConfigParser) (variable_name : Str) : List Str × ConfigParser :=
  getTypedValue ParseStringVector [] kStringTypeString true cp variable_name

/-- Models `ConfigParser::GetIntVector`. -/
def GetIntVector (cp : ConfigParser) (variable_name : Str) : List Int × ConfigParser :=
  getTypedValue ParseIntVector [] kIntTypeString true cp variable_name

/-- Models `ConfigParser::GetFloatVector`. -/
def GetFloatVector (cp : ConfigParser) (variable_name : Str) : List Str × ConfigParser :=
  getTypedValue ParseFloatVector [] kFloatTypeString true cp variable_name

/-- Models `ConfigParser::GetDoubleVector`. -/
def GetDoubleVector (cp : ConfigParser) (variable_name : Str) : List Str × ConfigParser :=
  getTypedValue ParseDoubleVector [] kDoubleTypeString true cp variable_name

/-- Models `ConfigParser::GetBoolVector`. -/
def GetBoolVector (cp : ConfigParser) (variable_name : Str) : List Bool × ConfigParser :=
  getTypedValue ParseBoolVector [] kBoolTypeString true cp variable_name

/- Shared characterization lemmas for the scanning primitives. -/

/-- The whitespace skip never moves the index backwards. -/
theorem skipWhitespace_ge (s : Str) (i : Nat) : i ≤ skipWhitespace s i := by
  unfold skipWhitespace readNextToken
  split <;> simp

/-- Fuel adequacy for `splitVecNSGo`: the index strictly increases each
iteration while the guard needs `index + 1 < s.length`, so once the fuel
covers the remaining distance the result no longer depends on it.  In
particular the fuel `s.length` used by `SplitVectorExpression` never
runs out. -/
theorem splitVecNSGo_fuel_stable (s : Str) :
    ∀ (fuel : Nat) (oob : Bool) (acc : List Str) (index : Nat),
      s.length ≤ index + fuel →
      splitVecNSGo s (fuel + 1) oob acc index = splitVecNSGo s fuel oob acc index := by
  intro fuel
  induction fuel with
  | zero =>
    intro oob acc index hle
    simp only [splitVecNSGo]
    have : ¬(index + 1 < s.length) := by omega
    simp [this]
  | succ f ih =>
    intro oob acc index hle
    conv =>
      lhs
      rw [splitVecNSGo]
    conv =>
      rhs
      rw [splitVecNSGo]
    by_cases hg : index + 1 < s.length
    · simp only [hg, if_true]
      split
      · rfl
      · have hrd : index ≤ (readNextToken (fun c => c == ',') s index).2 := by
          simp [readNextToken]
        have hsw : (readNextToken (fun c => c == ',') s index).2 + 1 ≤
            skipWhitespace s ((readNextToken (fun c => c == ',') s index).2 + 1) :=
          skipWhitespace_ge s _
        exact ih _ _ _ (by omega)
    · simp [hg]

/-- Indexing agrees with the head of the dropped suffix. -/
theorem getElem?_eq_head_drop (s : Str) (i : Nat) : s[i]? = (s.drop i).head? := by
  induction s generalizing i with
  | nil => simp
  | cons c cs ih =>
    cases i with
    | zero => simp
    | succ j => simp only [List.getElem?_cons_succ, List.drop_succ_cons]; exact ih j

/-- Evaluate `charAt` from a known suffix of the string. -/
theorem charAt_of_drop (s : Str) (i : Nat) (rest : Str) (h : s.drop i = rest) :
    charAt s i = rest.head?.getD (Char.ofNat 0) := by
  rw [charAt, getElem?_eq_head_drop, h]

/-- Advance a known suffix by the length of its leading block. -/
theorem drop_advance (s : Str) (i k : Nat) (u rest : Str)
    (h : s.drop i = u ++ rest) (hk : k = u.length) : s.drop (i + k) = rest := by
  subst hk
  rw [← List.drop_drop, h, List.drop_left]

/-- takeWhile over a satisfying block followed by a failing head. -/
theorem takeWhile_append_eq (q : Char → Bool) (u w : Str)
    (hu : ∀ c ∈ u, q c = true) (hw : ∀ c, w.head? = some c → q c = false) :
    (u ++ w).takeWhile q = u := by
  induction u with
  | nil =>
    cases w with
    | nil => rfl
    | cons c cs => simp [List.takeWhile_cons, hw c rfl]
  | cons c cs ih =>
    simp only [List.cons_append, List.takeWhile_cons, hu c (by simp)]
    simp only [if_true]
    rw [ih (fun d hd => hu d (by simp [hd]))]

/-- Evaluate `readNextToken` from a known suffix: collect the block of
non-delimiter characters and stop at the delimiter (or the end). -/
theorem readNextToken_spec (p : Char → Bool) (s : Str) (i : Nat) (tok rest : Str)
    (h : s.drop i = tok ++ rest) (htok : ∀ c ∈ tok, p c = false)
    (hrest : ∀ c, rest.head? = some c → p c = true) :
    readNextToken p s i = (tok, i + tok.length) := by
  unfold readNextToken
  rw [h, takeWhile_append_eq (fun c => !p c) tok rest
    (fun c hc => by simp [htok c hc]) (fun c hc => by simp [hrest c hc])]

/-- Evaluate `skipWhitespace` from a known suffix: skip the leading
whitespace block and stop at the first non-whitespace character (or the
end of the string). -/
theorem skipWhitespace_spec (s : Str) (i : Nat) (sp rest : Str)
    (h : s.drop i = sp ++ rest) (hsp : ∀ c ∈ sp, is_space c = true)
    (hrest : ∀ c, rest.head? = some c → is_space c = false) :
    skipWhitespace s i = i + sp.length := by
  cases sp with
  | nil =>
    have hca : charAt s i = rest.head?.getD (Char.ofNat 0) := charAt_of_drop s i rest (by simpa using h)
    have hns : is_space (charAt s i) = false := by
      rw [hca]
      cases hr : rest.head? with
      | none => decide
      | some c => simpa using hrest c hr
    simp [skipWhitespace, hns]
  | cons c sp' =>
    have hca : charAt s i = c := by
      rw [charAt_of_drop s i (c :: (sp' ++ rest)) (by simpa using h)]
      rfl
    have hcs : is_space (charAt s i) = true := by rw [hca]; exact hsp c (by simp)
    rw [skipWhitespace, hcs, if_pos rfl,
      readNextToken_spec (fun c => !is_space c) s i (c :: sp') rest h
        (fun d hd => by simp [hsp d hd]) (fun d hd => by simp [hrest d hd])]

/-- Membership form of `lookupVar`. -/
theorem lookupVar_mem (name : Str) (m : List (Str × Variable)) (v : Variable)
    (h : lookupVar name m = some v) : (name, v) ∈ m := by
  induction m with
  | nil => simp [lookupVar] at h
  | cons kv rest ih =>
    cases kv with
    | mk k w =>
      by_cases hk : k = name
      · subst hk
        simp [lookupVar] at h
        subst h
        exact List.mem_cons_self _ _
      · simp only [lookupVar, if_neg hk] at h
        exact List.mem_cons_of_mem (k, w) (ih h)

/- Normalization identity lemmas. -/

/-- A delimiter-free input passes through `splitStringAux` as one
segment appended to the pending accumulator. -/
theorem splitStringAux_no_delim (delim : Char) (cur s : Str)
    (h : ∀ c ∈ s, (c == delim) = false) :
    splitStringAux delim cur s = if cur ++ s = [] then [] else [cur ++ s] := by
  induction s generalizing cur with
  | nil => simp [splitStringAux]
  | cons c cs ih =>
    simp only [splitStringAux, h c (by simp)]
    rw [ih (cur ++ [c]) (fun d hd => h d (by simp [hd]))]
    simp

/-- A newline-free input is split into the single line it is. -/
theorem splitString_no_delim (delim : Char) (s : Str) (h0 : s ≠ [])
    (h : ∀ c ∈ s, (c == delim) = false) : splitString delim s = [s] := by
  rw [splitString, splitStringAux_no_delim delim [] s h]
  simp [h0]

/-- A line without the comment character passes through the comment
removal scan unchanged (quote toggles are irrelevant without `#`). -/
theorem removeComment_no_hash (s : Str) (h : ∀ c ∈ s, c ≠ '#') :
    ∀ q, removeComment q s = s := by
  induction s with
  | nil => intro q; rfl
  | cons c cs ih =>
    intro q
    by_cases hc : c == '"'
    · simp [removeComment, hc, ih (fun d hd => h d (by simp [hd])) (!q)]
    · have hh : (!q && c == '#') = false := by
        have := h c (by simp)
        simp [this]
      simp [removeComment, hc, hh, ih (fun d hd => h d (by simp [hd])) q]

/-- Inside a quoted region the comment scan copies characters up to the
closing quote and continues unquoted: a `#` inside quotes is not a
comment start. -/
theorem removeComment_in_quotes (mid b : Str) (hmid : ∀ c ∈ mid, c ≠ '"') :
    removeComment true (mid ++ '"' :: b) = mid ++ '"' :: removeComment false b := by
  induction mid with
  | nil => simp [removeComment]
  | cons c cs ih =>
    have hc : (c == '"') = false := by simp [hmid c (by simp)]
    simp [removeComment, hc, ih (fun d hd => hmid d (by simp [hd]))]

/-- A quote-free prefix without `#` passes through the unquoted comment
scan unchanged, and the scan continues behind it. -/
theorem removeComment_clean_append (a rest : Str)
    (ha : ∀ c ∈ a, c ≠ '#' ∧ c ≠ '"') :
    removeComment false (a ++ rest) = a ++ removeComment false rest := by
  induction a with
  | nil => rfl
  | cons c cs ih =>
    have hc1 : (c == '"') = false := by simp [(ha c (by simp)).2]
    have hc2 : (c == '#') = false := by simp [(ha c (by simp)).1]
    simp [removeComment, hc1, hc2, ih (fun d hd => ha d (by simp [hd]))]

/-- A string whose first and last characters are not whitespace is left
unchanged by `trim`. -/
theorem trim_eq_self (s : Str)
    (h1 : ∀ c, s.head? = some c → is_space c = false)
    (h2 : ∀ c, s.getLast? = some c → is_space c = false) : trim s = s := by
  have hl : ltrim s = s := by
    cases s with
    | nil => rfl
    | cons c cs => simp [ltrim, List.dropWhile_cons, h1 c rfl]
  have hr : rtrim s = s := by
    unfold rtrim
    cases hrv : s.reverse with
    | nil =>
      have : s = [] := by simpa using congrArg List.reverse hrv
      simp [this]
    | cons c cs =>
      have hc : is_space c = false := by
        apply h2
        rw [← List.head?_reverse, hrv]
        rfl
      rw [List.dropWhile_cons, hc]
      simp only [Bool.false_eq_true, if_false]
      rw [← hrv, List.reverse_reverse]
  rw [trim, hl, hr]

/-- Scanning a line without `[` never enters a vector literal. -/
theorem vecScan_no_bracket (s : Str) (h : ∀ c ∈ s, c ≠ '[') :
    ∀ q : Bool, (s.foldl vecScanStep (false, q)).1 = false := by
  induction s with
  | nil => intro q; rfl
  | cons c cs ih =>
    intro q
    have step : vecScanStep (false, q) c = (false, if c == '"' then !q else q) := by
      by_cases hc : c == '"'
      · simp [vecScanStep, hc]
      · have hb : (c == '[') = false := by simp [h c (by simp)]
        simp [vecScanStep, hc, hb]
    rw [List.foldl_cons, step]
    split <;> exact ih (fun d hd => h d (by simp [hd])) _

/-- Scanning a bracket-free prefix, then a quoted region (whose interior
may contain anything except a quote), leaves the vector scan outside a
vector literal. -/
theorem vecScan_quoted (a mid : Str) (ha : ∀ c ∈ a, c ≠ '[' ∧ c ≠ '"')
    (hmid : ∀ c ∈ mid, c ≠ '"') :
    ((a ++ '"' :: (mid ++ ['"'])).foldl vecScanStep (false, false)).1 = false := by
  have hstepa : ∀ (t : Str), (∀ c ∈ t, c ≠ '[' ∧ c ≠ '"') →
      t.foldl vecScanStep (false, false) = (false, false) := by
    intro t ht
    induction t with
    | nil => rfl
    | cons c cs ih =>
      have hc1 : (c == '"') = false := by simp [(ht c (by simp)).2]
      have hc2 : (c == '[') = false := by simp [(ht c (by simp)).1]
      rw [List.foldl_cons]
      have : vecScanStep (false, false) c = (false, false) := by
        simp [vecScanStep, hc1, hc2]
      rw [this, ih (fun d hd => ht d (by simp [hd]))]
  have hstepm : ∀ (t : Str), (∀ c ∈ t, c ≠ '"') →
      t.foldl vecScanStep (false, true) = (false, true) := by
    intro t ht
    induction t with
    | nil => rfl
    | cons c cs ih =>
      have hc1 : (c == '"') = false := by simp [ht c (by simp)]
      rw [List.foldl_cons]
      have : vecScanStep (false, true) c = (false, true) := by
        simp [vecScanStep, hc1]
      rw [this, ih (fun d hd => ht d (by simp [hd]))]
  rw [List.foldl_append, hstepa a ha, List.foldl_cons]
  have h1 : vecScanStep (false, false) '"' = (false, true) := by simp [vecScanStep]
  rw [h1, List.foldl_append, hstepm mid hmid, List.foldl_cons]
  have h2 : vecScanStep (false, true) '"' = (false, false) := by simp [vecScanStep]
  rw [h2]
  rfl

/-- A single stripped line whose vector scan ends outside a vector
literal passes through `RemoveNewlinesInVectorExpressions` unchanged. -/
theorem removeNewlines_single (l : Str)
    (h : (l.foldl vecScanStep (false, false)).1 = false) :
    RemoveNewlinesInVectorExpressions [l] = [l] := by
  simp [RemoveNewlinesInVectorExpressions, removeNewlinesGo, h]

/- Character classification helpers for the claims. -/

/-- Decimal digits are not whitespace. -/
theorem digit_not_space (c : Char) (h : c.isDigit = true) : is_space c = false := by
  have hs : ∀ d : Char, d.isDigit = false → (c == d) = false := by
    intro d hd
    by_cases hcd : c = d
    · rw [hcd] at h; rw [h] at hd; exact absurd hd (by simp)
    · simp [hcd]
  simp [is_space, hs ' ' (by decide), hs '\t' (by decide), hs '\n' (by decide),
    hs (Char.ofNat 11) (by decide), hs (Char.ofNat 12) (by decide), hs '\x0d' (by decide)]

/-- A digit differs from any non-digit character. -/
theorem digit_ne (c d : Char) (h : c.isDigit = true) (hd : d.isDigit = false) : c ≠ d := by
  intro hcd
  rw [hcd] at h
  rw [h] at hd
  exact absurd hd (by simp)

/-- The sign step of `stoiCore` is the identity on strings that start
with neither sign character. -/
theorem stoiSign_other (d : Char) (r : Str) (h1 : d ≠ '-') (h2 : d ≠ '+') :
    stoiSign (d :: r) = (false, d :: r) := by
  unfold stoiSign
  split
  · rename_i heq
    injection heq with hh
    exact absurd hh h1
  · rename_i heq
    injection heq with hh
    exact absurd hh h2
  · rfl

/- Claim C3. -/

/-- Claim C3, counterexample: the claim states that the int value parser
fails on any input with trailing garbage, such as `42abc`; the code uses
`std::stoi`, which parses the longest digit prefix and ignores the rest,
so `ParseInt "42abc"` returns 42 with the error flag clear.  The claimed
whole-substring rule is therefore false on the code. -/
theorem c3_counterexample : ParseInt (str "42abc") = (42, false) := by decide

theorem dropWhile_all_true (q : Char → Bool) (u w : Str) (hu : ∀ c ∈ u, q c = true) :
    (u ++ w).dropWhile q = w.dropWhile q := by
  induction u with
  | nil => rfl
  | cons c cs ih =>
    simp [List.dropWhile_cons, hu c (by simp), ih (fun d hd => hu d (by simp [hd]))]

theorem dropWhile_head_false (q : Char → Bool) (w : Str)
    (hw : ∀ c, w.head? = some c → q c = false) : w.dropWhile q = w := by
  cases w with
  | nil => rfl
  | cons c cs => simp [List.dropWhile_cons, hw c rfl]

theorem takeWhile_head_false (q : Char → Bool) (w : Str)
    (hw : ∀ c, w.head? = some c → q c = false) : w.takeWhile q = [] := by
  cases w with
  | nil => rfl
  | cons c cs => simp [List.takeWhile_cons, hw c rfl]

theorem stoiCore_shape (ws sgn X : Str)
    (hws : ∀ c ∈ ws, is_space c = true)
    (hsgn : sgn = [] ∨ sgn = ['-'] ∨ sgn = ['+'])
    (hX : sgn = [] → ∀ c, X.head? = some c → is_space c = false ∧ c ≠ '-' ∧ c ≠ '+') :
    stoiCore (ws ++ sgn ++ X) =
      (if X.takeWhile Char.isDigit = [] then none
       else
         if (if sgn = ['-'] then -(digitsVal (X.takeWhile Char.isDigit) : Int)
             else (digitsVal (X.takeWhile Char.isDigit) : Int)) < -2147483648 ∨
            2147483647 <
              (if sgn = ['-'] then -(digitsVal (X.takeWhile Char.isDigit) : Int)
               else (digitsVal (X.takeWhile Char.isDigit) : Int)) then none
         else some (if sgn = ['-'] then -(digitsVal (X.takeWhile Char.isDigit) : Int)
                    else (digitsVal (X.takeWhile Char.isDigit) : Int))) := by
  have he : ws ++ sgn ++ X = ws ++ (sgn ++ X) := by simp
  rw [he]
  unfold stoiCore
  rw [dropWhile_all_true is_space ws (sgn ++ X) hws]
  rcases hsgn with rfl | rfl | rfl
  · simp only [List.nil_append]
    rw [dropWhile_head_false is_space X (fun c hc => ((hX rfl) c hc).1)]
    cases hXc : X with
    | nil => simp [stoiSign]
    | cons c X' =>
      have hcs := (hX rfl) c (by rw [hXc]; rfl)
      rw [stoiSign_other c X' hcs.2.1 hcs.2.2]
      simp
  · have hd : (('-' :: X)).dropWhile is_space = '-' :: X := by
      rw [List.dropWhile_cons]
      simp [show is_space '-' = false from by decide]
    rw [show (['-'] : Str) ++ X = '-' :: X from rfl, hd,
      show stoiSign ('-' :: X) = (true, X) from rfl]
    simp
  · have hd : (('+' :: X)).dropWhile is_space = '+' :: X := by
      rw [List.dropWhile_cons]
      simp [show is_space '+' = false from by decide]
    rw [show (['+'] : Str) ++ X = '+' :: X from rfl,
      hd, show stoiSign ('+' :: X) = (false, X) from rfl]
    simp

/-- Claim C3, amended: the int value parser implements `std::stoi`
semantics, characterised in full on inputs decomposed as whitespace
prefix, optional sign (`[]`, `-`, or `+`), digit run, remainder.
Part 1 (success): after any all-whitespace prefix `ws` and any optional
sign, if at least one decimal digit follows and the value of the longest
digit run fits in a 32-bit int, the parse succeeds with that (signed)
value; any trailing characters after the digit run are ignored (a
partial parse), not an error.  Part 2 (failure, no digit): if after the
whitespace prefix and the optional sign no decimal digit follows, the
parse fails with `(0, true)`.  Part 3 (failure, out of range): if the
longest digit run's value exceeds the 32-bit bound for the given sign,
the parse fails with `(0, true)`.  Together: the parse succeeds iff a
digit follows the optional whitespace and sign and the digit run's value
is in range. -/
theorem c3_amended :
    (∀ (ws sgn ds rest : Str),
      (∀ c ∈ ws, is_space c = true) →
      (sgn = [] ∨ sgn = ['-'] ∨ sgn = ['+']) →
      ds ≠ [] → (∀ c ∈ ds, c.isDigit = true) →
      (∀ c, rest.head? = some c → c.isDigit = false) →
      (digitsVal ds : Int) ≤ (if sgn = ['-'] then 2147483648 else 2147483647) →
      ParseInt (ws ++ sgn ++ ds ++ rest) =
        ((if sgn = ['-'] then -(digitsVal ds : Int) else (digitsVal ds : Int)), false)) ∧
    (∀ (ws sgn rest : Str),
      (∀ c ∈ ws, is_space c = true) →
      (sgn = [] ∨ sgn = ['-'] ∨ sgn = ['+']) →
      (∀ c, rest.head? = some c → c.isDigit = false) →
      (sgn = [] → ∀ c, rest.head? = some c → is_space c = false ∧ c ≠ '-' ∧ c ≠ '+') →
      ParseInt (ws ++ sgn ++ rest) = (0, true)) ∧
    (∀ (ws sgn ds rest : Str),
      (∀ c ∈ ws, is_space c = true) →
      (sgn = [] ∨ sgn = ['-'] ∨ sgn = ['+']) →
      ds ≠ [] → (∀ c ∈ ds, c.isDigit = true) →
      (∀ c, rest.head? = some c → c.isDigit = false) →
      ((if sgn = ['-'] then (2147483648 : Int) else 2147483647) < (digitsVal ds : Int)) →
      ParseInt (ws ++ sgn ++ ds ++ rest) = (0, true)) := by
  refine ⟨?_, ?_, ?_⟩
  · intro ws sgn ds rest hws hsgn hds0 hdig hrest hbound
    obtain ⟨d, ds', rfl⟩ : ∃ d ds', ds = d :: ds' := by
      cases ds with
      | nil => exact absurd rfl hds0
      | cons d ds' => exact ⟨d, ds', rfl⟩
    have hdd : d.isDigit = true := hdig d (by simp)
    have hX : sgn = [] → ∀ c, ((d :: ds') ++ rest).head? = some c →
        is_space c = false ∧ c ≠ '-' ∧ c ≠ '+' := by
      intro _ c hc
      simp only [List.cons_append, List.head?_cons, Option.some.injEq] at hc
      exact hc ▸ ⟨digit_not_space d hdd, digit_ne d '-' hdd (by decide),
        digit_ne d '+' hdd (by decide)⟩
    have hshape := stoiCore_shape ws sgn ((d :: ds') ++ rest) hws hsgn hX
    have htw : ((d :: ds') ++ rest).takeWhile Char.isDigit = d :: ds' :=
      takeWhile_append_eq Char.isDigit (d :: ds') rest hdig hrest
    have he : ws ++ sgn ++ (d :: ds') ++ rest = ws ++ sgn ++ ((d :: ds') ++ rest) := by
      simp
    unfold ParseInt
    rw [he, hshape, htw]
    have hcond : ¬((if sgn = ['-'] then -(digitsVal (d :: ds') : Int)
        else (digitsVal (d :: ds') : Int)) < -2147483648 ∨
        2147483647 < (if sgn = ['-'] then -(digitsVal (d :: ds') : Int)
        else (digitsVal (d :: ds') : Int))) := by
      by_cases hm : sgn = ['-']
      · simp [hm] at hbound ⊢
        omega
      · simp [hm] at hbound ⊢
        omega
    rw [if_neg (by simp), if_neg hcond]
  · intro ws sgn rest hws hsgn hrest hempty
    have hshape := stoiCore_shape ws sgn rest hws hsgn hempty
    have htw : rest.takeWhile Char.isDigit = [] :=
      takeWhile_head_false Char.isDigit rest hrest
    unfold ParseInt
    rw [hshape, htw, if_pos rfl]
  · intro ws sgn ds rest hws hsgn hds0 hdig hrest hbound
    obtain ⟨d, ds', rfl⟩ : ∃ d ds', ds = d :: ds' := by
      cases ds with
      | nil => exact absurd rfl hds0
      | cons d ds' => exact ⟨d, ds', rfl⟩
    have hdd : d.isDigit = true := hdig d (by simp)
    have hX : sgn = [] → ∀ c, ((d :: ds') ++ rest).head? = some c →
        is_space c = false ∧ c ≠ '-' ∧ c ≠ '+' := by
      intro _ c hc
      simp only [List.cons_append, List.head?_cons, Option.some.injEq] at hc
      exact hc ▸ ⟨digit_not_space d hdd, digit_ne d '-' hdd (by decide),
        digit_ne d '+' hdd (by decide)⟩
    have hshape := stoiCore_shape ws sgn ((d :: ds') ++ rest) hws hsgn hX
    have htw : ((d :: ds') ++ rest).takeWhile Char.isDigit = d :: ds' :=
      takeWhile_append_eq Char.isDigit (d :: ds') rest hdig hrest
    have he : ws ++ sgn ++ (d :: ds') ++ rest = ws ++ sgn ++ ((d :: ds') ++ rest) := by
      simp
    unfold ParseInt
    rw [he, hshape, htw]
    have hcond : ((if sgn = ['-'] then -(digitsVal (d :: ds') : Int)
        else (digitsVal (d :: ds') : Int)) < -2147483648 ∨
        2147483647 < (if sgn = ['-'] then -(digitsVal (d :: ds') : Int)
        else (digitsVal (d :: ds') : Int))) := by
      by_cases hm : sgn = ['-']
      · simp [hm] at hbound ⊢
        omega
      · simp [hm] at hbound ⊢
        omega
    rw [if_neg (by simp), if_pos hcond]

/-- Claim C3, witness for the amended theorem: part 1 at the input
`  +42abc` (whitespace prefix, plus sign, trailing garbage ignored),
part 2 at the input ` abc` (no digit after the whitespace), and part 3
at the input `-2147483649` (one below the 32-bit minimum). -/
theorem c3_amended_witness :
    (ParseInt (str "  +42abc") = (42, false)) ∧
    (ParseInt (str " abc") = (0, true)) ∧
    (ParseInt (str "-2147483649") = (0, true)) := by
  refine ⟨?_, ?_, ?_⟩
  · have h := c3_amended.1 (str "  ") ['+'] (str "42") (str "abc")
      (by decide) (by decide) (by decide) (by decide) (by decide) (by decide)
    simpa using h
  · have h := c3_amended.2.1 (str " ") [] (str "abc")
      (by decide) (by decide) (by decide) (by decide)
    simpa using h
  · have h := c3_amended.2.2 [] ['-'] (str "2147483649") []
      (by decide) (by decide) (by decide) (by decide) (by decide) (by decide)
    simpa using h

/- Claim C4. -/

/-- Claim C4, counterexample: the claim states that a vector parse with a
failing element discards partial results; on `[1, x]` the code stops at
the failing element `x` but returns the partial vector `[1, 0]` (the
already-parsed 1 and the failing element's default 0) with the error
flag set, so partial results are returned, not discarded. -/
theorem c4_counterexample :
    ParseIntVector (str "[1, x]") = ([1, 0], true) ∧
      (ParseIntVector (str "[1, x]")).1 ≠ [] :=
  ⟨by decide, by decide⟩

/-- Claim C4, amended: the first failing element sets the error flag and
aborts parsing of the remaining elements; the values already parsed,
followed by the failing element's default value, are returned alongside
the set error flag (rather than being discarded), and the construction
path (`CheckParseVector`) treats any flagged result as invalid, so no
partially parsed vector is surfaced as valid. -/
theorem c4_amended :
    (∀ (α : Type) (parse : Str → α × Bool) (pre : List Str) (bad : Str) (post : List Str),
      (∀ e ∈ pre, (parse e).2 = false) → (parse bad).2 = true →
      parseVectorElems parse (pre ++ bad :: post) =
        (pre.map (fun e => (parse e).1) ++ [(parse bad).1], true)) ∧
    (∀ s : Str, (ParseIntVector s).2 = true → CheckParseVector s kIntTypeString = false) ∧
    (∀ s : Str, (ParseStringVector s).2 = true →
      CheckParseVector s kStringTypeString = false) := by
  refine ⟨?_, ?_, ?_⟩
  · intro α parse pre bad post hpre hbad
    induction pre with
    | nil => simp [parseVectorElems, hbad]
    | cons e pre' ih =>
      have he : (parse e).2 = false := hpre e (by simp)
      have ih' := ih (fun d hd => hpre d (by simp [hd]))
      simp only [List.cons_append, parseVectorElems, he, Bool.false_eq_true, if_false, ih']
      simp [ih']
  · intro s h
    have hmap : kTypeStringMap kIntTypeString = some .kInt := by decide
    simp [CheckParseVector, hmap, h]
  · intro s h
    have hmap : kTypeStringMap kStringTypeString = some .kString := by decide
    simp [CheckParseVector, hmap, h]

/-- Claim C4, witness for the amended theorem: element list
`["1", "x", "2"]` stops at `x` returning `[1, 0]` with the flag set, and
the flagged result is rejected by `CheckParseVector`. -/
theorem c4_witness :
    parseVectorElems ParseInt ([str "1"] ++ str "x" :: [str "2"]) =
      ([str "1"].map (fun e => (ParseInt e).1) ++ [(ParseInt (str "x")).1], true) ∧
    CheckParseVector (str "[1, x]") kIntTypeString = false :=
  ⟨c4_amended.1 Int ParseInt [str "1"] (str "x") [str "2"] (by decide) (by decide),
   c4_amended.2.1 (str "[1, x]") (by decide)⟩

/- Claim C5. -/

/-- Claim C5, counterexample: the claim states that `int[] v = [1, 2,]`
(trailing comma) is rejected; in fact construction reports no error and
stores the variable: the comma tokenizer of the non-string branch of
`SplitVectorExpression` consumes the final `2,]` segment without ever
seeing a trailing-comma condition, yielding the elements `1` and `2`. -/
theorem c5_counterexample :
    (mkConfigParser (str "cfg") (some (str "int[] v = [1, 2,]"))).error_messages = [] ∧
    lookupVar (str "v")
        (mkConfigParser (str "cfg") (some (str "int[] v = [1, 2,]"))).var_map =
      some ⟨kIntTypeString, true, str "[1, 2,]"⟩ :=
  ⟨by decide, by decide⟩

/-- Claim C5, amended: a trailing comma before the closing bracket of a
non-string vector expression is accepted, not rejected: the declaration
`int[] v = [1, 2,]` records no error, stores the variable with its raw
expression, and `GetIntVector` returns `[1, 2]`. -/
theorem c5_amended :
    (mkConfigParser (str "cfg") (some (str "int[] v = [1, 2,]"))).error_messages = [] ∧
    lookupVar (str "v")
        (mkConfigParser (str "cfg") (some (str "int[] v = [1, 2,]"))).var_map =
      some ⟨kIntTypeString, true, str "[1, 2,]"⟩ ∧
    (GetIntVector (mkConfigParser (str "cfg") (some (str "int[] v = [1, 2,]")))
        (str "v")).1 = [1, 2] :=
  ⟨by decide, by decide, by decide⟩

/- Claim C10. -/

/-- Claim C10: the claim asserts that every character access of the
non-string branch of `SplitVectorExpression` stays within bounds; the
code violates it.  On the ordinary six-character expression `[1, 2]`
the final token `2]` ends at the string end, the index is then advanced
past the (absent) comma to 7, and `SkipWhitespace` reads
`vector_string[7]` — beyond even the defined `[size()]` terminator
access, i.e. undefined behaviour in C++.  The embedded monitor
`splitVecNSOob` records exactly the accesses at indices greater than
the length and reports one here. -/
theorem c10_oob_access :
    splitVecNSOob (str "[1, 2]") = true ∧ (str "[1, 2]").length = 6 :=
  ⟨by decide, by decide⟩

/- Claim C8. -/

/-- Claim C8: construction on an unopenable file records exactly one
error, leaves the variable store empty, and every subsequent getter
(`getTypedValue` is the common body of all ten) returns its
type-appropriate zero value while appending one lookup-error message;
nothing aborts (all functions are total in the embedding). -/
theorem c8_unopenable (path name : Str) :
    ErrorCount (mkConfigParser path none) = 1 ∧
    (mkConfigParser path none).var_map = [] ∧
    (∀ (α : Type) (parse : Str → α × Bool) (zero : α) (t : Str) (b : Bool),
      (getTypedValue parse zero t b (mkConfigParser path none) name).1 = zero ∧
      (getTypedValue parse zero t b (mkConfigParser path none) name).2.error_messages =
        (mkConfigParser path none).error_messages ++
          [str "Error: didn't find variable " ++ name ++ str " of type " ++ t ++
            (if b then str "[]" else [])]) := by
  refine ⟨by simp [mkConfigParser, ErrorCount], by simp [mkConfigParser], ?_⟩
  intro α parse zero t b
  constructor
  · simp [getTypedValue, CheckVariableExists, mkConfigParser, lookupVar]
  · simp [getTypedValue, CheckVariableExists, mkConfigParser, lookupVar]

/- Claim C7. -/

/-- Claim C7: comment transparency.  First part: an unquoted `#` after a
quote-free, hash-free prefix erases everything from the `#` through the
end of the line.  Second part: a `#` inside a double-quoted region is
not a comment start — the quoted region (whose interior may contain
anything but a quote, in particular `#`) is copied verbatim and the
scan resumes after it.  Third part: the concrete spec example
`int x = 5 # comment with "quotes" and [brackets]` parses `x` as 5 with
no error, the comment (including its quotes and brackets) fully
ignored. -/
theorem c7_comment_transparency :
    (∀ a b : Str, (∀ c ∈ a, c ≠ '#' ∧ c ≠ '"') →
      removeComment false (a ++ '#' :: b) = a) ∧
    (∀ a mid b : Str, (∀ c ∈ a, c ≠ '#' ∧ c ≠ '"') → (∀ c ∈ mid, c ≠ '"') →
      removeComment false (a ++ '"' :: (mid ++ '"' :: b)) =
        a ++ '"' :: (mid ++ '"' :: removeComment false b)) ∧
    (mkConfigParser (str "cfg")
        (some (str "int x = 5 # comment with \"quotes\" and [brackets]"))).error_messages
      = [] ∧
    (GetIntValue
        (mkConfigParser (str "cfg")
          (some (str "int x = 5 # comment with \"quotes\" and [brackets]")))
        (str "x")).1 = 5 := by
  refine ⟨?_, ?_, by decide, by decide⟩
  · intro a b ha
    rw [removeComment_clean_append a ('#' :: b) ha]
    simp [removeComment]
  · intro a mid b ha hmid
    rw [removeComment_clean_append a _ ha]
    have : removeComment false ('"' :: (mid ++ '"' :: b)) =
        '"' :: removeComment true (mid ++ '"' :: b) := by
      simp [removeComment]
    rw [this, removeComment_in_quotes mid b hmid]

/-- Claim C7, witness for the two quantified parts. -/
theorem c7_witness :
    removeComment false (str "int x = 5 " ++ '#' :: str " hi [1]") = str "int x = 5 " ∧
    removeComment false (str "s = " ++ '"' :: (str "a#b" ++ '"' :: str " tail")) =
      str "s = " ++ '"' :: (str "a#b" ++ '"' :: removeComment false (str " tail")) :=
  ⟨c7_comment_transparency.1 (str "int x = 5 ") (str " hi [1]") (by decide),
   c7_comment_transparency.2.1 (str "s = ") (str "a#b") (str " tail") (by decide) (by decide)⟩

/- Claim C2. -/

/-- Claim C2: a typed getter (all ten share the body `getTypedValue`)
fails — appending exactly one lookup-error message and returning the
type-appropriate zero value — precisely when the name is absent from
the variable store, or stored under a different declared type string,
or with a mismatched vector/scalar arity; otherwise it leaves the state
unchanged and returns the stored expression re-parsed with the matching
value parser.  All embedded functions are total, so no call aborts. -/
theorem c2_getter_fail_iff (α : Type) (parse : Str → α × Bool) (zero : α)
    (expected_type : Str) (expected_vec : Bool) (cp : ConfigParser) (name : Str) :
    ((match lookupVar name cp.var_map with
      | some v => v.type_string ≠ expected_type ∨ v.is_vector ≠ expected_vec
      | none => True) →
      getTypedValue parse zero expected_type expected_vec cp name =
        (zero, { cp with error_messages := cp.error_messages ++
          [str "Error: didn't find variable " ++ name ++ str " of type " ++ expected_type ++
            (if expected_vec then str "[]" else [])] })) ∧
    (∀ v, lookupVar name cp.var_map = some v → v.type_string = expected_type →
      v.is_vector = expected_vec →
      getTypedValue parse zero expected_type expected_vec cp name =
        ((parse v.expression_string).1, cp)) := by
  constructor
  · intro hfail
    unfold getTypedValue CheckVariableExists
    cases hl : lookupVar name cp.var_map with
    | none => simp [hl]
    | some v =>
      rw [hl] at hfail
      have hff : (v.type_string == expected_type && v.is_vector == expected_vec) = false := by
        rcases hfail with h | h <;> simp [h]
      simp [hl, hff]
  · intro v hl ht hb
    unfold getTypedValue CheckVariableExists
    simp [hl, ht, hb]

/-- Claim C2, witness: on a store holding `x` as a scalar int, the int
getter succeeds and returns the re-parsed expression, while the float
getter on the same name fails with one appended error (type isolation),
both derived from the iff theorem. -/
theorem c2_witness :
    getTypedValue ParseInt 0 kIntTypeString false
        ⟨str "cfg", [(str "x", ⟨kIntTypeString, false, str "7"⟩)], [], 1⟩ (str "x") =
      ((ParseInt (str "7")).1,
        ⟨str "cfg", [(str "x", ⟨kIntTypeString, false, str "7"⟩)], [], 1⟩) ∧
    getTypedValue ParseFloat [] kFloatTypeString false
        ⟨str "cfg", [(str "x", ⟨kIntTypeString, false, str "7"⟩)], [], 1⟩ (str "x") =
      ([], { config_path := str "cfg",
             var_map := [(str "x", ⟨kIntTypeString, false, str "7"⟩)],
             error_messages := [] ++
               [str "Error: didn't find variable " ++ str "x" ++ str " of type " ++
                 kFloatTypeString ++ (if false then str "[]" else [])],
             line_number := 1 }) :=
  ⟨(c2_getter_fail_iff Int ParseInt 0 kIntTypeString false
      ⟨str "cfg", [(str "x", ⟨kIntTypeString, false, str "7"⟩)], [], 1⟩ (str "x")).2
    ⟨kIntTypeString, false, str "7"⟩ (by decide) rfl rfl,
   (c2_getter_fail_iff Str ParseFloat [] kFloatTypeString false
      ⟨str "cfg", [(str "x", ⟨kIntTypeString, false, str "7"⟩)], [], 1⟩ (str "x")).1
    (Or.inl (by decide))⟩

/- Claim C9. -/

/-- Variable-map effect of `finishDecl`: either an error left the map
unchanged, or the inserted variable passed `CheckParseExpression`. -/
theorem finishDecl_var_map (cp : ConfigParser) (line name ts : Str) (iv : Bool)
    (expr : Str) (cur : Nat) :
    (finishDecl cp line name ts iv expr cur).1.var_map = cp.var_map ∨
    (CheckParseExpression expr ts iv = true ∧
      (finishDecl cp line name ts iv expr cur).1.var_map =
        (name, ⟨ts, iv, expr⟩) :: cp.var_map) := by
  unfold finishDecl
  split
  · left
    simp [AddErrorMessage]
  · split
    · left
      simp [AddErrorMessage]
    · rename_i hchk hcur
      right
      refine ⟨?_, rfl⟩
      cases hb : CheckParseExpression expr ts iv with
      | true => rfl
      | false => exact absurd (by rw [hb]; rfl) hchk

/-- Variable-map effect of one constructor-loop iteration: the map is
unchanged or extended by one entry whose expression passed
`CheckParseExpression` under its stored type and vector flag. -/
theorem processLine_var_map (cp : ConfigParser) (line : Str) :
    (processLine cp line).1.var_map = cp.var_map ∨
    ∃ name ts iv expr, CheckParseExpression expr ts iv = true ∧
      (processLine cp line).1.var_map = (name, ⟨ts, iv, expr⟩) :: cp.var_map := by
  have hfin : ∀ (cp2 : ConfigParser) (nm ts2 : Str) (iv : Bool) (ex : Str) (cur : Nat),
      cp2.var_map = cp.var_map →
      ((finishDecl cp2 line nm ts2 iv ex cur).1.var_map = cp.var_map ∨
       ∃ name ts iv' expr, CheckParseExpression expr ts iv' = true ∧
         (finishDecl cp2 line nm ts2 iv ex cur).1.var_map =
           (name, ⟨ts, iv', expr⟩) :: cp.var_map) := by
    intro cp2 nm ts2 iv ex cur hvm
    rcases finishDecl_var_map cp2 line nm ts2 iv ex cur with h | ⟨hchk, hmap⟩
    · left
      rw [h, hvm]
    · right
      exact ⟨nm, ts2, iv, ex, hchk, by rw [hmap, hvm]⟩
  simp only [processLine]
  repeat' split
  all_goals first
    | (left; simp [AddErrorMessage])
    | exact hfin _ _ _ _ _ _ rfl

/-- Store invariant along the constructor loop: all stored expressions
parse under their stored type and flag. -/
theorem processLines_store_ok (lines : List Str) (cp : ConfigParser)
    (h : ∀ kv ∈ cp.var_map,
      CheckParseExpression kv.2.expression_string kv.2.type_string kv.2.is_vector = true) :
    ∀ kv ∈ (processLines cp lines).var_map,
      CheckParseExpression kv.2.expression_string kv.2.type_string kv.2.is_vector = true := by
  induction lines generalizing cp with
  | nil => exact h
  | cons l rest ih =>
    have hstep : ∀ kv ∈ (processLine cp l).1.var_map,
        CheckParseExpression kv.2.expression_string kv.2.type_string kv.2.is_vector
          = true := by
      rcases processLine_var_map cp l with hm | ⟨nm, ts, iv, ex, hchk, hm⟩
      · rw [hm]
        exact h
      · rw [hm]
        intro kv hkv
        rcases List.mem_cons.mp hkv with he | hmem
        · subst he
          exact hchk
        · exact h kv hmem
    simp only [processLines]
    split
    · exact hstep
    · exact ih _ hstep

/-- Claim C9: every variable in the store of a constructed parser has an
expression string that `CheckParseExpression` accepts under its stored
type string and vector flag; consequently the re-parse performed inside
a successful typed getter never sets its error flag (shown here for the
scalar int and string instances, the other instances being the same
unfolding of `CheckParseValue`/`CheckParseVector`), which is why the
getters may discard the flag. -/
theorem c9_store_invariant (path : Str) (file : Option Str) (n : Str) (v : Variable)
    (h : lookupVar n (mkConfigParser path file).var_map = some v) :
    CheckParseExpression v.expression_string v.type_string v.is_vector = true ∧
    (v.type_string = kIntTypeString → v.is_vector = false →
      (ParseInt v.expression_string).2 = false) ∧
    (v.type_string = kStringTypeString → v.is_vector = false →
      (ParseString v.expression_string).2 = false) := by
  have hinv : ∀ kv ∈ (mkConfigParser path file).var_map,
      CheckParseExpression kv.2.expression_string kv.2.type_string kv.2.is_vector
        = true := by
    cases file with
    | none => simp [mkConfigParser]
    | some text => exact processLines_store_ok _ _ (by simp)
  have h1 := hinv (n, v) (lookupVar_mem n _ v h)
  refine ⟨h1, ?_, ?_⟩
  · intro ht hb
    rw [ht, hb] at h1
    have hmap : kTypeStringMap kIntTypeString = some ExpressionType.kInt := by decide
    simpa [CheckParseExpression, CheckParseValue, hmap] using h1
  · intro ht hb
    rw [ht, hb] at h1
    have hmap : kTypeStringMap kStringTypeString = some ExpressionType.kString := by decide
    simpa [CheckParseExpression, CheckParseValue, hmap] using h1

/-- Claim C9, witness at the one-line config `int x = 1`. -/
theorem c9_witness :
    lookupVar (str "x") (mkConfigParser (str "cfg") (some (str "int x = 1"))).var_map =
      some ⟨kIntTypeString, false, str "1"⟩ ∧
    CheckParseExpression (str "1") kIntTypeString false = true :=
  ⟨by decide,
   (c9_store_invariant (str "cfg") (some (str "int x = 1")) (str "x")
      ⟨kIntTypeString, false, str "1"⟩ (by decide)).1⟩

/- Claim C6. -/

/-- Error-log effect of `finishDecl`: a halting branch appends exactly
one message; the inserting branch leaves the log unchanged. -/
theorem finishDecl_errors (cp : ConfigParser) (line name ts : Str) (iv : Bool)
    (expr : Str) (cur : Nat) :
    ((finishDecl cp line name ts iv expr cur).2 = true ∧
      (finishDecl cp line name ts iv expr cur).1.error_messages.length =
        cp.error_messages.length + 1) ∨
    ((finishDecl cp line name ts iv expr cur).2 = false ∧
      (finishDecl cp line name ts iv expr cur).1.error_messages = cp.error_messages) := by
  unfold finishDecl
  split
  · exact Or.inl ⟨rfl, by simp [AddErrorMessage]⟩
  · split
    · exact Or.inl ⟨rfl, by simp [AddErrorMessage]⟩
    · exact Or.inr ⟨rfl, rfl⟩

/-- Error-log effect of one constructor-loop iteration: a halting
iteration appends exactly one message, a completing one appends none. -/
theorem processLine_errors (cp : ConfigParser) (line : Str) :
    ((processLine cp line).2 = true ∧
      (processLine cp line).1.error_messages.length = cp.error_messages.length + 1) ∨
    ((processLine cp line).2 = false ∧
      (processLine cp line).1.error_messages = cp.error_messages) := by
  simp only [processLine]
  repeat' split
  all_goals first
    | exact Or.inl ⟨rfl, by simp [AddErrorMessage]⟩
    | (rcases finishDecl_errors
        { cp with line_number := cp.line_number + 1 } line _ _ _ _ _ with ⟨h1, h2⟩ | ⟨h1, h2⟩
       · exact Or.inl ⟨h1, h2⟩
       · exact Or.inr ⟨h1, h2⟩)

/-- When a block of lines processes without recording any error, the
constructor loop continues into the remaining lines from the state the
block produced (no hidden halt inside the block). -/
theorem processLines_append_of_clean (cp : ConfigParser) (xs ys : List Str)
    (h : (processLines cp xs).error_messages = cp.error_messages) :
    processLines cp (xs ++ ys) = processLines (processLines cp xs) ys := by
  induction xs generalizing cp with
  | nil => rfl
  | cons x xs' ih =>
    rcases processLine_errors cp x with ⟨h1, h2⟩ | ⟨h1, h2⟩
    · exfalso
      have hpl : processLines cp (x :: xs') = (processLine cp x).1 := by
        simp only [processLines, h1, if_true]
      rw [hpl] at h
      rw [h] at h2
      omega
    · have hpl : processLines cp (x :: xs') = processLines (processLine cp x).1 xs' := by
        simp only [processLines, h1, Bool.false_eq_true, if_false]
      have h' : (processLines (processLine cp x).1 xs').error_messages =
          (processLine cp x).1.error_messages := by
        rw [h2, ← h, hpl]
      calc processLines cp ((x :: xs') ++ ys)
          = processLines (processLine cp x).1 (xs' ++ ys) := by
            simp only [List.cons_append, processLines, h1, Bool.false_eq_true, if_false]
            rfl
        _ = processLines (processLines (processLine cp x).1 xs') ys := ih _ h'
        _ = processLines (processLines cp (x :: xs')) ys := by rw [hpl]

/-- Claim C6: on input lines `pre ++ dup :: post` where `pre` processes
cleanly and the declaration `dup` carries a valid type token and a name
token already present in the store, construction stops at `dup` with
exactly one recorded error (the redefinition message), the variable
store stays exactly the store built from `pre` (so nothing at or after
the duplicate is inserted), the result does not depend on `post` (no
declaration after the duplicate is processed), and every variable
declared before the duplicate is still found by `CheckVariableExists`
under its own type and arity. -/
theorem c6_duplicate_halts (path : Str) (pre post : List Str) (dup : Str)
    (h0 : (processLines ⟨path, [], [], 0⟩ pre).error_messages = [])
    (htype : TypeStringIsValid
      (if vecSuffix (scanTypeTok dup).1 = true
       then (scanTypeTok dup).1.take ((scanTypeTok dup).1.length - 2)
       else (scanTypeTok dup).1) = true)
    (hdup : (lookupVar (scanNameTok dup).1
      (processLines ⟨path, [], [], 0⟩ pre).var_map).isSome = true) :
    processLines ⟨path, [], [], 0⟩ (pre ++ dup :: post) =
      AddErrorMessage
        { processLines ⟨path, [], [], 0⟩ pre with
          line_number := (processLines ⟨path, [], [], 0⟩ pre).line_number + 1 }
        (str "redefinition of entity: " ++ (scanNameTok dup).1) ∧
    (processLines ⟨path, [], [], 0⟩ (pre ++ dup :: post)).error_messages.length = 1 ∧
    (processLines ⟨path, [], [], 0⟩ (pre ++ dup :: post)).var_map =
      (processLines ⟨path, [], [], 0⟩ pre).var_map ∧
    (∀ post' : List Str, processLines ⟨path, [], [], 0⟩ (pre ++ dup :: post') =
      processLines ⟨path, [], [], 0⟩ (pre ++ dup :: post)) ∧
    (∀ m w, lookupVar m (processLines ⟨path, [], [], 0⟩ pre).var_map = some w →
      (CheckVariableExists (processLines ⟨path, [], [], 0⟩ (pre ++ dup :: post)) m
        w.type_string w.is_vector).2 = true) := by
  have hstep : processLine (processLines ⟨path, [], [], 0⟩ pre) dup =
      (AddErrorMessage
        { processLines ⟨path, [], [], 0⟩ pre with
          line_number := (processLines ⟨path, [], [], 0⟩ pre).line_number + 1 }
        (str "redefinition of entity: " ++ (scanNameTok dup).1), true) := by
    simp only [processLine]
    simp [htype, hdup]
  have hmainf : ∀ post' : List Str, processLines ⟨path, [], [], 0⟩ (pre ++ dup :: post') =
      AddErrorMessage
        { processLines ⟨path, [], [], 0⟩ pre with
          line_number := (processLines ⟨path, [], [], 0⟩ pre).line_number + 1 }
        (str "redefinition of entity: " ++ (scanNameTok dup).1) := by
    intro post'
    rw [processLines_append_of_clean ⟨path, [], [], 0⟩ pre (dup :: post') h0]
    simp only [processLines, hstep, if_true]
  have hmain := hmainf post
  refine ⟨hmain, ?_, ?_, ?_, ?_⟩
  · rw [hmain]
    simp [AddErrorMessage, h0]
  · rw [hmain]
    simp [AddErrorMessage]
  · intro post'
    rw [hmainf post', hmain]
  · intro m w hw
    have hvm : (processLines ⟨path, [], [], 0⟩ (pre ++ dup :: post)).var_map =
        (processLines ⟨path, [], [], 0⟩ pre).var_map := by
      rw [hmain]
      simp [AddErrorMessage]
    simp [CheckVariableExists, hvm, hw]

/-- Claim C6, witness: `int a = 1`, duplicate `int a = 2`, then
`int b = 3`; exactly one error and the store of the first line only. -/
theorem c6_witness :
    (processLines ⟨str "cfg", [], [], 0⟩
        ([str "int a = 1"] ++ str "int a = 2" :: [str "int b = 3"])).error_messages.length
      = 1 ∧
    (processLines ⟨str "cfg", [], [], 0⟩
        ([str "int a = 1"] ++ str "int a = 2" :: [str "int b = 3"])).var_map =
      (processLines ⟨str "cfg", [], [], 0⟩ [str "int a = 1"]).var_map :=
  ⟨(c6_duplicate_halts (str "cfg") [str "int a = 1"] [str "int b = 3"] (str "int a = 2")
      (by decide) (by decide) (by decide)).2.1,
   (c6_duplicate_halts (str "cfg") [str "int a = 1"] [str "int b = 3"] (str "int a = 2")
      (by decide) (by decide) (by decide)).2.2.1⟩

/- Claim C1. -/

/-- Tokenization trace of one scalar declaration line
`type name = value` (single spaces): under the stated well-formedness
conditions the constructor-loop iteration reads the type, name and `=`
tokens, extracts the value expression, validates it, and inserts the
variable without error. -/
theorem processLine_scalar_single
    (cp : ConfigParser) (t n v : Str)
    (hcp : lookupVar n cp.var_map = none)
    (ht0 : t ≠ [])
    (htc : ∀ c ∈ t, is_space c = false)
    (hvs : vecSuffix t = false)
    (htv : TypeStringIsValid t = true)
    (hn0 : n ≠ [])
    (hnc : ∀ c ∈ n, is_space c = false)
    (hv0 : v ≠ [])
    (hvhead : ∀ c, v.head? = some c → is_space c = false)
    (hbr : (t = kStringTypeString ∧ charAt v 0 = '"' ∧ getLastD v = '"')
         ∨ (t ≠ kStringTypeString ∧ ∀ c ∈ v, is_space c = false))
    (hchk : CheckParseExpression v t false = true) :
    processLine cp (t ++ [' '] ++ n ++ [' ', '=', ' '] ++ v) =
      ({ cp with
          line_number := cp.line_number + 1
          var_map := (n, ⟨t, false, v⟩) :: cp.var_map }, false) := by
  obtain ⟨th, t', rfl⟩ : ∃ th t', t = th :: t' := by
    cases t with
    | nil => exact absurd rfl ht0
    | cons a b => exact ⟨a, b, rfl⟩
  obtain ⟨nh, n', rfl⟩ : ∃ nh n', n = nh :: n' := by
    cases n with
    | nil => exact absurd rfl hn0
    | cons a b => exact ⟨a, b, rfl⟩
  set L : Str := (th :: t') ++ [' '] ++ (nh :: n') ++ [' ', '=', ' '] ++ v with hLdef
  have d0 : L.drop 0 = (th :: t') ++ (' ' :: ((nh :: n') ++ (' ' :: '=' :: ' ' :: v))) := by
    simp [hLdef]
  have d1 : L.drop ((th :: t').length) = ' ' :: ((nh :: n') ++ (' ' :: '=' :: ' ' :: v)) := by
    simpa using drop_advance L 0 (th :: t').length (th :: t') _ d0 rfl
  have d2 : L.drop ((th :: t').length + 1) = (nh :: n') ++ (' ' :: '=' :: ' ' :: v) :=
    drop_advance L ((th :: t').length) 1 [' '] _ d1 rfl
  have d3 : L.drop ((th :: t').length + 1 + (nh :: n').length) = ' ' :: '=' :: ' ' :: v :=
    drop_advance L ((th :: t').length + 1) (nh :: n').length (nh :: n') _ d2 rfl
  have d4 : L.drop ((th :: t').length + 1 + (nh :: n').length + 1) = '=' :: ' ' :: v :=
    drop_advance L ((th :: t').length + 1 + (nh :: n').length) 1 [' '] _ d3 rfl
  have d5 : L.drop ((th :: t').length + 1 + (nh :: n').length + 1 + 1) = ' ' :: v :=
    drop_advance L ((th :: t').length + 1 + (nh :: n').length + 1) 1 ['='] _ d4 rfl
  have d6 : L.drop ((th :: t').length + 1 + (nh :: n').length + 1 + 1 + 1) = v :=
    drop_advance L ((th :: t').length + 1 + (nh :: n').length + 1 + 1) 1 [' '] _ d5 rfl
  have s0 : skipWhitespace L 0 = 0 := by
    simpa using skipWhitespace_spec L 0 [] _ (by simpa using d0) (by simp)
      (fun c hc => by
        simp at hc
        exact hc ▸ htc th (by simp))
  have r1 : readNextToken is_space L 0 = ((th :: t'), (th :: t').length) := by
    simpa using readNextToken_spec is_space L 0 (th :: t') _ d0 htc
      (fun c hc => by
        simp at hc
        subst hc
        decide)
  have e1 : scanTypeTok L = ((th :: t'), (th :: t').length) := by
    rw [scanTypeTok, s0, r1]
  have s1 : skipWhitespace L ((th :: t').length) = (th :: t').length + 1 := by
    simpa using skipWhitespace_spec L ((th :: t').length) [' '] _ d1
      (by decide)
      (fun c hc => by
        simp at hc
        exact hc ▸ hnc nh (by simp))
  have r2 : readNextToken is_space L ((th :: t').length + 1) =
      ((nh :: n'), (th :: t').length + 1 + (nh :: n').length) :=
    readNextToken_spec is_space L _ (nh :: n') _ d2 hnc
      (fun c hc => by
        simp at hc
        subst hc
        decide)
  have e2 : scanNameTok L = ((nh :: n'), (th :: t').length + 1 + (nh :: n').length) := by
    rw [scanNameTok, e1, s1, r2]
  have s2 : skipWhitespace L ((th :: t').length + 1 + (nh :: n').length) =
      (th :: t').length + 1 + (nh :: n').length + 1 := by
    simpa using skipWhitespace_spec L _ [' '] _ d3 (by decide)
      (fun c hc => by
        simp at hc
        subst hc
        decide)
  have r3 : readNextToken is_space L ((th :: t').length + 1 + (nh :: n').length + 1) =
      (['='], (th :: t').length + 1 + (nh :: n').length + 1 + 1) :=
    readNextToken_spec is_space L _ ['='] _ d4 (by decide)
      (fun c hc => by
        simp at hc
        subst hc
        decide)
  have e3 : scanEqTok L = (['='], (th :: t').length + 1 + (nh :: n').length + 1 + 1) := by
    rw [scanEqTok, e2, s2, r3]
  have s3 : skipWhitespace L ((th :: t').length + 1 + (nh :: n').length + 1 + 1) =
      (th :: t').length + 1 + (nh :: n').length + 1 + 1 + 1 := by
    simpa using skipWhitespace_spec L _ [' '] _ d5 (by decide) hvhead
  have s3' : skipWhitespace L (t'.length + 1 + 1 + (n'.length + 1) + 1 + 1)
      = t'.length + 1 + 1 + (n'.length + 1) + 1 + 1 + 1 := s3
  have d6' : L.drop (t'.length + 1 + 1 + (n'.length + 1) + 1 + 1 + 1) = v := d6
  have hlenL : L.length = (th :: t').length + 1 + (nh :: n').length + 1 + 1 + 1 + v.length := by
    simp [hLdef]
    omega
  have hfd : ∀ cp2 : ConfigParser, finishDecl cp2 L (nh :: n') (th :: t') false v L.length =
      ({ cp2 with var_map := ((nh :: n'), ⟨(th :: t'), false, v⟩) :: cp2.var_map }, false) := by
    intro cp2
    unfold finishDecl
    rw [hchk]
    simp
  rcases hbr with ⟨hts, hq1, hq2⟩ | ⟨hts, hvns⟩
  · have hca : charAt L ((th :: t').length + 1 + (nh :: n').length + 1 + 1 + 1) = '"' := by
      rw [charAt_of_drop L _ v d6]
      rw [charAt_of_drop v 0 v (List.drop_zero v)] at hq1
      exact hq1
    have hgl : getLastD L = '"' := by
      rw [hLdef, getLastD, List.getLast?_append_of_ne_nil _ hv0]
      exact hq2
    have hceq : ((th :: t') = kStringTypeString) = True := by simp [hts]
    have hca' : charAt L (t'.length + 1 + 1 + (n'.length + 1) + 1 + 1 + 1) = '"' := hca
    simp [processLine, e1, e2, e3, hvs, htv, hcp, s3', hca', hgl, d6', hfd, hceq]
  · have hex : readNextToken is_space L ((th :: t').length + 1 + (nh :: n').length + 1 + 1 + 1) =
        (v, L.length) := by
      have hv' : L.drop ((th :: t').length + 1 + (nh :: n').length + 1 + 1 + 1) = v ++ [] := by
        simpa using d6
      have := readNextToken_spec is_space L _ v [] hv' hvns (fun c hc => by simp at hc)
      rw [this]
      rw [hlenL]
    have hceq : ((th :: t') = kStringTypeString) = False := by simp [hts]
    have hex' : readNextToken is_space L (t'.length + 1 + 1 + (n'.length + 1) + 1 + 1 + 1)
        = (v, L.length) := hex
    have hfd2 : finishDecl { cp with line_number := cp.line_number + 1 } L (nh :: n')
        (th :: t') false v L.length =
        ({ cp with
            line_number := cp.line_number + 1
            var_map := ((nh :: n'), ⟨(th :: t'), false, v⟩) :: cp.var_map }, false) :=
      hfd { cp with line_number := cp.line_number + 1 }
    simp [processLine, e1, e2, e3, hvs, htv, hcp, s3', hex', hfd2, hceq]

/-- Construction over a file holding exactly one scalar declaration
line, given that the normalizer passes the line through unchanged. -/
theorem mkConfigParser_scalar_single (path t n v : Str)
    (hstrip : StripWhitespaceAndComments (t ++ [' '] ++ n ++ [' ', '=', ' '] ++ v)
      = [t ++ [' '] ++ n ++ [' ', '=', ' '] ++ v])
    (hrn : RemoveNewlinesInVectorExpressions [t ++ [' '] ++ n ++ [' ', '=', ' '] ++ v]
      = [t ++ [' '] ++ n ++ [' ', '=', ' '] ++ v])
    (ht0 : t ≠ [])
    (htc : ∀ c ∈ t, is_space c = false)
    (hvs : vecSuffix t = false)
    (htv : TypeStringIsValid t = true)
    (hn0 : n ≠ [])
    (hnc : ∀ c ∈ n, is_space c = false)
    (hv0 : v ≠ [])
    (hvhead : ∀ c, v.head? = some c → is_space c = false)
    (hbr : (t = kStringTypeString ∧ charAt v 0 = '"' ∧ getLastD v = '"')
         ∨ (t ≠ kStringTypeString ∧ ∀ c ∈ v, is_space c = false))
    (hchk : CheckParseExpression v t false = true) :
    mkConfigParser path (some (t ++ [' '] ++ n ++ [' ', '=', ' '] ++ v)) =
      ⟨path, [(n, ⟨t, false, v⟩)], [], 1⟩ := by
  simp only [mkConfigParser]
  rw [hstrip, hrn]
  have hpl := processLine_scalar_single ⟨path, [], [], 0⟩ t n v (by simp [lookupVar])
    ht0 htc hvs htv hn0 hnc hv0 hvhead hbr hchk
  simp only [processLines, hpl]
  simp

/-- A string literal (quote first and last, length at least two)
decomposes into its quotes and interior. -/
theorem quoted_decomp (v : Str) (h1 : charAt v 0 = '"') (h2 : getLastD v = '"')
    (hl : 2 ≤ v.length) :
    v = '"' :: ((v.drop 1).dropLast ++ ['"']) := by
  cases v with
  | nil => simp at hl
  | cons c rest =>
    have hc : c = '"' := by simpa [charAt] using h1
    subst hc
    have hr0 : rest ≠ [] := by
      intro h
      subst h
      simp at hl
    have h2' : rest.getLast? = some '"' := by
      have hstep : ('"' :: rest).getLast? = rest.getLast? := by
        cases rest with
        | nil => exact absurd rfl hr0
        | cons d ds => exact List.getLast?_cons_cons ..
      rw [getLastD, hstep] at h2
      cases hx : rest.getLast? with
      | none =>
        exfalso
        cases rest with
        | nil => exact hr0 rfl
        | cons d ds =>
          rw [List.getLast?_eq_getLast _ (by simp)] at hx
          cases hx
      | some d =>
        rw [hx] at h2
        simp at h2
        rw [h2]
    have hsplit : rest.dropLast ++ ['"'] = rest := by
      have hdg := List.dropLast_append_getLast hr0
      have hgl : rest.getLast hr0 = '"' := by
        rw [List.getLast?_eq_getLast rest hr0] at h2'
        exact (Option.some.injEq _ _).mp h2'
      rw [hgl] at hdg
      exact hdg
    simp only [List.drop_one, List.tail_cons]
    rw [hsplit]

/-- Non-whitespace characters differ from the newline. -/
theorem nonspace_beq_nl (c : Char) (h : is_space c = false) : (c == '\n') = false := by
  by_cases hc : c = '\n'
  · subst hc
    exact absurd h (by decide)
  · simp [hc]

/-- A newline-free, comment-free, trimmed line passes through
`StripWhitespaceAndComments` as itself. -/
theorem strip_single_line (L : Str) (hne : L ≠ [])
    (hnl : ∀ c ∈ L, (c == '\n') = false)
    (hrc : removeComment false L = L)
    (hhead : ∀ c, L.head? = some c → is_space c = false)
    (hlast : ∀ c, L.getLast? = some c → is_space c = false) :
    StripWhitespaceAndComments L = [L] := by
  unfold StripWhitespaceAndComments
  rw [splitString_no_delim '\n' L hne hnl]
  simp [hrc, trim_eq_self L hhead hlast, hne]

/-- Construction for a single non-string scalar declaration: the
normalizer is the identity on the line (no newline, hash, quote or
bracket occurs in its tokens) and the declaration is stored. -/
theorem c1_nonstring_aux (path t n v : Str)
    (ht0 : t ≠ [])
    (htc : ∀ c ∈ t, is_space c = false ∧ c ≠ '#' ∧ c ≠ '"' ∧ c ≠ '[')
    (hvs : vecSuffix t = false)
    (htv : TypeStringIsValid t = true)
    (hts : t ≠ kStringTypeString)
    (hn0 : n ≠ [])
    (hn : ∀ c ∈ n, is_space c = false ∧ c ≠ '#' ∧ c ≠ '"' ∧ c ≠ '[')
    (hv0 : v ≠ [])
    (hv : ∀ c ∈ v, is_space c = false ∧ c ≠ '#' ∧ c ≠ '"' ∧ c ≠ '[')
    (hcpv : CheckParseValue v t = true) :
    mkConfigParser path (some (t ++ [' '] ++ n ++ [' ', '=', ' '] ++ v)) =
      ⟨path, [(n, ⟨t, false, v⟩)], [], 1⟩ := by
  have hchk : CheckParseExpression v t false = true := by
    simpa [CheckParseExpression] using hcpv
  have hLne : t ++ [' '] ++ n ++ [' ', '=', ' '] ++ v ≠ [] := by
    simp
  have hmem : ∀ c ∈ t ++ [' '] ++ n ++ [' ', '=', ' '] ++ v,
      c ∈ t ∨ c = ' ' ∨ c ∈ n ∨ c = '=' ∨ c ∈ v := by
    intro c hc
    simp [List.mem_append] at hc
    tauto
  have hnl : ∀ c ∈ t ++ [' '] ++ n ++ [' ', '=', ' '] ++ v, (c == '\n') = false := by
    intro c hc
    rcases hmem c hc with h | h | h | h | h
    · exact nonspace_beq_nl c (htc c h).1
    · subst h
      decide
    · exact nonspace_beq_nl c (hn c h).1
    · subst h
      decide
    · exact nonspace_beq_nl c (hv c h).1
  have hnh : ∀ c ∈ t ++ [' '] ++ n ++ [' ', '=', ' '] ++ v, c ≠ '#' := by
    intro c hc
    rcases hmem c hc with h | h | h | h | h
    · exact (htc c h).2.1
    · subst h
      decide
    · exact (hn c h).2.1
    · subst h
      decide
    · exact (hv c h).2.1
  have hnb : ∀ c ∈ t ++ [' '] ++ n ++ [' ', '=', ' '] ++ v, c ≠ '[' := by
    intro c hc
    rcases hmem c hc with h | h | h | h | h
    · exact (htc c h).2.2.2
    · subst h
      decide
    · exact (hn c h).2.2.2
    · subst h
      decide
    · exact (hv c h).2.2.2
  have hhead : ∀ c, (t ++ [' '] ++ n ++ [' ', '=', ' '] ++ v).head? = some c →
      is_space c = false := by
    obtain ⟨th, t', rfl⟩ : ∃ th t', t = th :: t' := by
      cases t with
      | nil => exact absurd rfl ht0
      | cons a b => exact ⟨a, b, rfl⟩
    intro c hc
    simp at hc
    exact hc ▸ (htc th (by simp)).1
  have hLA : t ++ [' '] ++ n ++ [' ', '=', ' '] ++ v =
      (t ++ [' '] ++ n ++ [' ', '=', ' ']) ++ v := by simp
  have hlast : ∀ c, (t ++ [' '] ++ n ++ [' ', '=', ' '] ++ v).getLast? = some c →
      is_space c = false := by
    intro c hc
    rw [hLA, List.getLast?_append_of_ne_nil _ hv0] at hc
    exact (hv c (List.mem_of_mem_getLast? hc)).1
  have hstrip := strip_single_line _ hLne hnl
    (removeComment_no_hash _ hnh false) hhead hlast
  have hrn : RemoveNewlinesInVectorExpressions [t ++ [' '] ++ n ++ [' ', '=', ' '] ++ v] =
      [t ++ [' '] ++ n ++ [' ', '=', ' '] ++ v] :=
    removeNewlines_single _ (vecScan_no_bracket _ hnb false)
  have hvhead : ∀ c, v.head? = some c → is_space c = false := by
    intro c hc
    exact (hv c (List.mem_of_mem_head? hc)).1
  exact mkConfigParser_scalar_single path t n v hstrip hrn ht0
    (fun c hc => (htc c hc).1) hvs htv hn0 (fun c hc => (hn c hc).1) hv0 hvhead
    (Or.inr ⟨hts, fun c hc => (hv c hc).1⟩) hchk

/-- Construction for a single string scalar declaration: the quoted
value protects its interior (which may contain any characters except a
quote or newline) from the comment and bracket scans, and the
declaration is stored. -/
theorem c1_string_aux (path n v : Str)
    (hn0 : n ≠ [])
    (hn : ∀ c ∈ n, is_space c = false ∧ c ≠ '#' ∧ c ≠ '"' ∧ c ≠ '[')
    (hv0 : v ≠ [])
    (hq1 : charAt v 0 = '"')
    (hq2 : getLastD v = '"')
    (hlen : 2 ≤ v.length)
    (hint : ∀ c ∈ (v.drop 1).dropLast, c ≠ '"' ∧ c ≠ '\n') :
    mkConfigParser path (some (kStringTypeString ++ [' '] ++ n ++ [' ', '=', ' '] ++ v)) =
      ⟨path, [(n, ⟨kStringTypeString, false, v⟩)], [], 1⟩ := by
  obtain ⟨mid, hvdec⟩ : ∃ mid, v = '"' :: (mid ++ ['"']) :=
    ⟨(v.drop 1).dropLast, quoted_decomp v hq1 hq2 hlen⟩
  have hmid : (v.drop 1).dropLast = mid := by
    rw [hvdec]
    simp
  rw [hmid] at hint
  have hps : (ParseString v).2 = false := by
    unfold ParseString
    have hcond : ¬(v.length < 2 ∨ charAt v 0 ≠ '"' ∨ getLastD v ≠ '"') := by
      push_neg
      exact ⟨by omega, hq1, hq2⟩
    rw [if_neg hcond]
    have hnc : ¬ '"' ∈ (v.drop 1).dropLast := by
      rw [hmid]
      exact fun hx => (hint '"' hx).1 rfl
    simp only [List.drop_one] at hnc
    simp [hnc]
  have hchk : CheckParseExpression v kStringTypeString false = true := by
    have hmap : kTypeStringMap kStringTypeString = some ExpressionType.kString := by decide
    simp [CheckParseExpression, CheckParseValue, hmap, hps]
  have hLne : kStringTypeString ++ [' '] ++ n ++ [' ', '=', ' '] ++ v ≠ [] := by simp
  have hks1 : ∀ x ∈ kStringTypeString, (x == '\n') = false := by decide
  have hks2 : ∀ x ∈ kStringTypeString, x ≠ '#' ∧ x ≠ '"' := by decide
  have hks3 : ∀ x ∈ kStringTypeString, x ≠ '[' ∧ x ≠ '"' := by decide
  have hmem : ∀ c ∈ kStringTypeString ++ [' '] ++ n ++ [' ', '=', ' '] ++ v,
      c ∈ kStringTypeString ∨ c = ' ' ∨ c ∈ n ∨ c = '=' ∨ c ∈ v := by
    intro c hc
    simp [List.mem_append] at hc
    tauto
  have hvmem : ∀ c ∈ v, c = '"' ∨ c ∈ mid := by
    intro c hc
    rw [hvdec] at hc
    simp at hc
    tauto
  have hnl : ∀ c ∈ kStringTypeString ++ [' '] ++ n ++ [' ', '=', ' '] ++ v,
      (c == '\n') = false := by
    intro c hc
    rcases hmem c hc with h | h | h | h | h
    · exact hks1 c h
    · subst h
      decide
    · exact nonspace_beq_nl c (hn c h).1
    · subst h
      decide
    · rcases hvmem c h with h2 | h2
      · subst h2
        decide
      · simp [(hint c h2).2]
  have hAmem : ∀ c ∈ kStringTypeString ++ [' '] ++ n ++ [' ', '=', ' '],
      c ∈ kStringTypeString ∨ c = ' ' ∨ c ∈ n ∨ c = '=' := by
    intro c hc
    simp [List.mem_append] at hc
    tauto
  have hAcl : ∀ c ∈ kStringTypeString ++ [' '] ++ n ++ [' ', '=', ' '],
      c ≠ '#' ∧ c ≠ '"' := by
    intro c hc
    rcases hAmem c hc with h | h | h | h
    · exact hks2 c h
    · subst h
      exact ⟨by decide, by decide⟩
    · exact ⟨(hn c h).2.1, (hn c h).2.2.1⟩
    · subst h
      exact ⟨by decide, by decide⟩
  have hAbr : ∀ c ∈ kStringTypeString ++ [' '] ++ n ++ [' ', '=', ' '],
      c ≠ '[' ∧ c ≠ '"' := by
    intro c hc
    rcases hAmem c hc with h | h | h | h
    · exact hks3 c h
    · subst h
      exact ⟨by decide, by decide⟩
    · exact ⟨(hn c h).2.2.2, (hn c h).2.2.1⟩
    · subst h
      exact ⟨by decide, by decide⟩
  have hintq : ∀ c ∈ mid, c ≠ '"' := fun c hc => (hint c hc).1
  have hLform : kStringTypeString ++ [' '] ++ n ++ [' ', '=', ' '] ++ v =
      (kStringTypeString ++ [' '] ++ n ++ [' ', '=', ' ']) ++
        ('"' :: (mid ++ '"' :: [])) := by
    conv_lhs => rw [hvdec]
  have hrc : removeComment false (kStringTypeString ++ [' '] ++ n ++ [' ', '=', ' '] ++ v) =
      kStringTypeString ++ [' '] ++ n ++ [' ', '=', ' '] ++ v := by
    rw [hLform, removeComment_clean_append _ _ hAcl]
    have h1 : removeComment false ('"' :: (mid ++ '"' :: [])) =
        '"' :: removeComment true (mid ++ '"' :: []) := by
      simp [removeComment]
    rw [h1, removeComment_in_quotes _ _ hintq]
    simp [removeComment]
  have hhead : ∀ c, (kStringTypeString ++ [' '] ++ n ++ [' ', '=', ' '] ++ v).head? = some c →
      is_space c = false := by
    intro c hc
    simp [kStringTypeString, str] at hc
    subst hc
    decide
  have hlast : ∀ c, (kStringTypeString ++ [' '] ++ n ++ [' ', '=', ' '] ++ v).getLast? = some c →
      is_space c = false := by
    intro c hc
    rw [show kStringTypeString ++ [' '] ++ n ++ [' ', '=', ' '] ++ v =
        (kStringTypeString ++ [' '] ++ n ++ [' ', '=', ' ']) ++ v from by simp,
      List.getLast?_append_of_ne_nil _ hv0] at hc
    have hcv : getLastD v = c := by
      rw [getLastD, hc]
      rfl
    rw [hq2] at hcv
    rw [← hcv]
    decide
  have hstrip := strip_single_line _ hLne hnl hrc hhead hlast
  have hrn : RemoveNewlinesInVectorExpressions
      [kStringTypeString ++ [' '] ++ n ++ [' ', '=', ' '] ++ v] =
      [kStringTypeString ++ [' '] ++ n ++ [' ', '=', ' '] ++ v] := by
    apply removeNewlines_single
    rw [hLform]
    exact vecScan_quoted _ _ hAbr hintq
  have hvhead : ∀ c, v.head? = some c → is_space c = false := by
    intro c hc
    rw [hvdec] at hc
    simp at hc
    subst hc
    decide
  exact mkConfigParser_scalar_single path kStringTypeString n v hstrip hrn (by decide)
    (by decide) (by decide) (by decide) hn0 (fun c hc => (hn c hc).1) hv0 hvhead
    (Or.inl ⟨rfl, hq1, hq2⟩) hchk

/-- Claim C1: for a well-formed scalar declaration line
`type name = value` whose value is a valid literal of the declared type
(for `string`: a quoted literal with quote-free, newline-free interior;
for the other types: a space/hash/quote/bracket-free token accepted by
`CheckParseValue`), constructing the parser on a file holding that line
records no error, stores the variable, and the getter of the matching
type returns exactly the value obtained by running that type's scalar
value parser on the literal directly. -/
theorem c1_round_trip (path t n v : Str)
    (ht : t ∈ kValidTypeStrings)
    (hn0 : n ≠ [])
    (hn : ∀ c ∈ n, is_space c = false ∧ c ≠ '#' ∧ c ≠ '"' ∧ c ≠ '[')
    (hv0 : v ≠ [])
    (hstr : t = kStringTypeString →
      charAt v 0 = '"' ∧ getLastD v = '"' ∧ 2 ≤ v.length ∧
      ∀ c ∈ (v.drop 1).dropLast, c ≠ '"' ∧ c ≠ '\n')
    (hnonstr : t ≠ kStringTypeString →
      (∀ c ∈ v, is_space c = false ∧ c ≠ '#' ∧ c ≠ '"' ∧ c ≠ '[') ∧
      CheckParseValue v t = true) :
    ((mkConfigParser path (some (t ++ [' '] ++ n ++ [' ', '=', ' '] ++ v))).error_messages = []
      ∧ lookupVar n
          (mkConfigParser path (some (t ++ [' '] ++ n ++ [' ', '=', ' '] ++ v))).var_map
        = some ⟨t, false, v⟩)
    ∧ (t = kIntTypeString →
        (GetIntValue (mkConfigParser path (some (t ++ [' '] ++ n ++ [' ', '=', ' '] ++ v)))
          n).1 = (ParseInt v).1)
    ∧ (t = kStringTypeString →
        (GetStringValue (mkConfigParser path (some (t ++ [' '] ++ n ++ [' ', '=', ' '] ++ v)))
          n).1 = (ParseString v).1)
    ∧ (t = kFloatTypeString →
        (GetFloatValue (mkConfigParser path (some (t ++ [' '] ++ n ++ [' ', '=', ' '] ++ v)))
          n).1 = (ParseFloat v).1)
    ∧ (t = kDoubleTypeString →
        (GetDoubleValue (mkConfigParser path (some (t ++ [' '] ++ n ++ [' ', '=', ' '] ++ v)))
          n).1 = (ParseDouble v).1)
    ∧ (t = kBoolTypeString →
        (GetBoolValue (mkConfigParser path (some (t ++ [' '] ++ n ++ [' ', '=', ' '] ++ v)))
          n).1 = (ParseBool v).1) := by
  have hgetter : ∀ (hmkv : ConfigParser) (α : Type) (parse : Str → α × Bool) (zero : α),
      hmkv = ⟨path, [(n, ⟨t, false, v⟩)], [], 1⟩ →
      (getTypedValue parse zero t false hmkv n).1 = (parse v).1 := by
    intro hmkv α parse zero hmk
    subst hmk
    simp [getTypedValue, CheckVariableExists, lookupVar]
  simp only [kValidTypeStrings, List.mem_cons, List.mem_singleton, List.not_mem_nil,
    or_false] at ht
  rcases ht with rfl | rfl | rfl | rfl | rfl
  · obtain ⟨hq1, hq2, hlen, hint⟩ := hstr rfl
    have hmk := c1_string_aux path n v hn0 hn hv0 hq1 hq2 hlen hint
    refine ⟨⟨by rw [hmk], by rw [hmk]; simp [lookupVar]⟩, ?_, ?_, ?_, ?_, ?_⟩
    · intro h
      exact absurd h (by decide)
    · intro _
      exact hgetter _ Str ParseString [] hmk
    · intro h
      exact absurd h (by decide)
    · intro h
      exact absurd h (by decide)
    · intro h
      exact absurd h (by decide)
  · obtain ⟨hv4, hcpv⟩ := hnonstr (by decide)
    have hmk := c1_nonstring_aux path kIntTypeString n v (by decide) (by decide) (by decide)
      (by decide) (by decide) hn0 hn hv0 hv4 hcpv
    refine ⟨⟨by rw [hmk], by rw [hmk]; simp [lookupVar]⟩, ?_, ?_, ?_, ?_, ?_⟩
    · intro _
      exact hgetter _ Int ParseInt 0 hmk
    · intro h
      exact absurd h (by decide)
    · intro h
      exact absurd h (by decide)
    · intro h
      exact absurd h (by decide)
    · intro h
      exact absurd h (by decide)
  · obtain ⟨hv4, hcpv⟩ := hnonstr (by decide)
    have hmk := c1_nonstring_aux path kFloatTypeString n v (by decide) (by decide) (by decide)
      (by decide) (by decide) hn0 hn hv0 hv4 hcpv
    refine ⟨⟨by rw [hmk], by rw [hmk]; simp [lookupVar]⟩, ?_, ?_, ?_, ?_, ?_⟩
    · intro h
      exact absurd h (by decide)
    · intro h
      exact absurd h (by decide)
    · intro _
      exact hgetter _ Str ParseFloat [] hmk
    · intro h
      exact absurd h (by decide)
    · intro h
      exact absurd h (by decide)
  · obtain ⟨hv4, hcpv⟩ := hnonstr (by decide)
    have hmk := c1_nonstring_aux path kDoubleTypeString n v (by decide) (by decide) (by decide)
      (by decide) (by decide) hn0 hn hv0 hv4 hcpv
    refine ⟨⟨by rw [hmk], by rw [hmk]; simp [lookupVar]⟩, ?_, ?_, ?_, ?_, ?_⟩
    · intro h
      exact absurd h (by decide)
    · intro h
      exact absurd h (by decide)
    · intro h
      exact absurd h (by decide)
    · intro _
      exact hgetter _ Str ParseDouble [] hmk
    · intro h
      exact absurd h (by decide)
  · obtain ⟨hv4, hcpv⟩ := hnonstr (by decide)
    have hmk := c1_nonstring_aux path kBoolTypeString n v (by decide) (by decide) (by decide)
      (by decide) (by decide) hn0 hn hv0 hv4 hcpv
    refine ⟨⟨by rw [hmk], by rw [hmk]; simp [lookupVar]⟩, ?_, ?_, ?_, ?_, ?_⟩
    · intro h
      exact absurd h (by decide)
    · intro h
      exact absurd h (by decide)
    · intro h
      exact absurd h (by decide)
    · intro h
      exact absurd h (by decide)
    · intro _
      exact hgetter _ Bool ParseBool false hmk

/-- Claim C1, witness at `int length = 42`: `GetIntValue` returns the
directly parsed literal, which is 42. -/
theorem c1_witness :
    (GetIntValue (mkConfigParser (str "cfg")
        (some (kIntTypeString ++ [' '] ++ str "length" ++ [' ', '=', ' '] ++ str "42")))
      (str "length")).1 = (ParseInt (str "42")).1 ∧
    (ParseInt (str "42")).1 = 42 :=
  ⟨(c1_round_trip (str "cfg") kIntTypeString (str "length") (str "42")
      (by decide) (by decide) (by decide) (by decide)
      (fun h => absurd h (by decide))
      (fun _ => ⟨by decide, by decide⟩)).2.1 rfl,
   by decide⟩
